import Mathlib

/-!
Verification of the DHCPv6 server core of this repository (a 2013-era Kea
snapshot).  The sampled sources contain the unit tests of the server
(src/src/bin/dhcp6/tests/dhcp6_srv_unittest.cc) and of the IA-Prefix option
(src/src/lib/dhcp/tests/option6_iaprefix_unittest.cc); the implementation
files themselves (dhcp6_srv.cc, option6_iaprefix.cc, the memfile lease
manager, the configuration manager and the allocation engine) are not part
of the sample.  The definitions below therefore model those missing parts
from the specification (spec.md), each marked `Modelled from the spec:`;
where the in-repository unit tests pin a behavior that the specification
does not state (the single-subnet link-local selection special case, the
iterative allocator that makes consecutive SOLICITs advertise distinct
addresses), the model follows the tests, which are the code of this
repository.

Addresses are 128-bit values embedded as `Nat` (all inputs of interest are
< 2^128; the operations used here - prefix comparison, range membership,
increment inside a pool - never overflow 128 bits on such inputs).
-/

namespace Kea6

/-- IPv6 address, 128-bit value as a natural number. -/
abbrev Addr := Nat

/-- DUID: an opaque octet sequence (spec section 3). -/
abbrev Duid := List Nat

/-- Builds an address from its eight 16-bit groups, as in the textual
IPv6 notation used by the tests. -/
def mkAddr (a b c d e f g h : Nat) : Addr :=
  ((((((a * 65536 + b) * 65536 + c) * 65536 + d) * 65536 + e) * 65536 + f)
    * 65536 + g) * 65536 + h

/-- Modelled from the spec: a pool is a contiguous closed range
[first, last] of addresses (spec section 3, "Pool"). -/
structure Pool where
  first : Nat
  last : Nat
deriving DecidableEq, Repr

/-- `Pool6(type, addr, 64)` in the tests: the pool spanning one /64. -/
def mkPool64 (a : Addr) : Pool :=
  { first := a, last := a + (2 ^ 64 - 1) }

def Pool.containsB (p : Pool) (a : Nat) : Bool :=
  decide (p.first ≤ a ∧ a ≤ p.last)

/-- Modelled from the spec: a subnet carries a prefix, four lifetimes,
pools, an optional interface name, an optional interface-id, and an id
(spec section 3, "Subnet"). -/
structure Subnet where
  prefixAddr : Nat
  prefixLen : Nat
  t1 : Nat
  t2 : Nat
  preferred : Nat
  valid : Nat
  pools : List Pool
  iface : Option String
  ifaceId : Option (List Nat)
  id : Nat
deriving DecidableEq, Repr

/-- Subnet6::inRange: the prefix of length prefixLen covers the address. -/
def Subnet.inRangeB (s : Subnet) (a : Nat) : Bool :=
  decide (a / 2 ^ (128 - s.prefixLen) = s.prefixAddr / 2 ^ (128 - s.prefixLen))

/-- Subnet6::inPool: the address lies in one of the subnet pools. -/
def Subnet.inPoolB (s : Subnet) (a : Nat) : Bool :=
  s.pools.any (fun p => p.containsB a)

/-- Every pool is a well-formed non-empty range. -/
def poolsWF (ps : List Pool) : Prop :=
  ∀ p ∈ ps, p.first ≤ p.last

instance (ps : List Pool) : Decidable (poolsWF ps) := by
  unfold poolsWF; infer_instance

/-- Modelled from the spec: a server-side IA_NA binding (spec section 3,
"IA_NA binding"): address, client DUID, IAID, T1, T2, preferred and valid
lifetimes, owning subnet id and client-last-transmission-time. -/
structure Lease where
  addr : Nat
  duid : Duid
  iaid : Nat
  t1 : Nat
  t2 : Nat
  preferred : Nat
  valid : Nat
  subnetId : Nat
  cltt : Nat
deriving DecidableEq, Repr

/-- Modelled from the spec: the in-memory lease store backend
(spec section 4.4), a map keyed by address with a secondary index by
(duid, iaid, subnet id); embedded as the list of stored leases. -/
abbrev LeaseDB := List Lease

/-- get_by_address (spec section 4.4). -/
def getLease6ByAddr (db : LeaseDB) (a : Nat) : Option Lease :=
  db.find? (fun l => decide (l.addr = a))

/-- get_by_client (spec section 4.4): lookup by (duid, iaid, subnet id). -/
def getLease6ByClient (db : LeaseDB) (d : Duid) (iaid sid : Nat) : Option Lease :=
  db.find? (fun l => decide (l.duid = d ∧ l.iaid = iaid ∧ l.subnetId = sid))

/-- Result of `add` (spec section 4.4). -/
inductive AddResult where
  | ok (db : LeaseDB)
  | duplicate
deriving DecidableEq, Repr

/-- Modelled from the spec: `add(lease) -> Ok or Duplicate if the address
is already leased` (spec section 4.4). -/
def addLease (db : LeaseDB) (l : Lease) : AddResult :=
  if (getLease6ByAddr db l.addr).isSome then .duplicate else .ok (db ++ [l])

/-- Modelled from the spec: `update(lease)` replaces the lease stored
under the same address (spec section 4.4). -/
def updateLease (db : LeaseDB) (l : Lease) : LeaseDB :=
  db.map (fun x => if x.addr = l.addr then l else x)

/-- Modelled from the spec: `delete(addr)` removes the lease stored under
the address (spec section 4.4). -/
def deleteLease (db : LeaseDB) (a : Nat) : LeaseDB :=
  db.filter (fun l => decide (l.addr ≠ a))

/-- Each address belongs to at most one lease (spec section 3 invariant,
first half as listed for the store). -/
def AddrUnique (db : LeaseDB) : Prop :=
  (db.map (fun l => l.addr)).Nodup

instance (db : LeaseDB) : Decidable (AddrUnique db) := by
  unfold AddrUnique; infer_instance

/-- For each (DUID, IAID, subnet-id) at most one active lease
(spec section 3 invariant, second half). -/
def ClientUnique (db : LeaseDB) : Prop :=
  (db.map (fun l => (l.duid, l.iaid, l.subnetId))).Nodup

instance (db : LeaseDB) : Decidable (ClientUnique db) := by
  unfold ClientUnique; infer_instance

/-! ## Packet model (spec section 4.2) -/

/-- IA-Address sub-option: one address plus preferred and valid lifetimes
(spec section 4.1). -/
structure IAAddrOpt where
  addr : Nat
  preferred : Nat
  valid : Nat
deriving DecidableEq, Repr, Inhabited

/-- IA_NA option of a request: IAID, T1, T2 and the (first) IA-Address
sub-option when present (spec section 4.1). -/
structure IaNaOpt where
  iaid : Nat
  t1 : Nat
  t2 : Nat
  iaaddr : Option IAAddrOpt
deriving DecidableEq, Repr, Inhabited

/-- One relay frame: link-address, peer-address and an optional
interface-id option (spec section 3, "Packet"). -/
structure RelayInfo where
  linkaddr : Nat
  peeraddr : Nat
  ifaceId : Option (List Nat)
deriving DecidableEq, Repr

/-- Modelled from the spec: an inbound packet (spec section 3, "Packet"):
message type, transaction id, options (the Client-Id, Server-Id and IA_NA
options, the ones the processor consults, kept typed), source address,
receiving interface name and the relay stack, outermost first. -/
structure Pkt where
  msgType : Nat
  transid : Nat
  clientIds : List Duid
  serverIds : List Duid
  ias : List IaNaOpt
  remoteAddr : Nat
  iface : String
  relays : List RelayInfo
deriving DecidableEq, Repr

/-- IA_NA option of a reply, plus its Status-Code sub-option. -/
structure IaNaReply where
  iaid : Nat
  t1 : Nat
  t2 : Nat
  iaaddr : Option IAAddrOpt
  status : Option Nat
deriving DecidableEq, Repr, Inhabited

/-- A reply packet: message type, transaction id, echoed Client-Id, the
server's Server-Id, the IA_NA answers and the message-level Status-Code. -/
structure Reply where
  msgType : Nat
  transid : Nat
  clientId : Option Duid
  serverId : Duid
  ias : List IaNaReply
  msgStatus : Option Nat
deriving DecidableEq, Repr

/-- DHCPv6 message types used by the core. -/
def DHCPV6_SOLICIT : Nat := 1
def DHCPV6_ADVERTISE : Nat := 2
def DHCPV6_REQUEST : Nat := 3
def DHCPV6_RENEW : Nat := 5
def DHCPV6_REPLY : Nat := 7
def DHCPV6_RELEASE : Nat := 8

/-- Recognized status codes (spec section 6). -/
def STATUS_Success : Nat := 0
def STATUS_NoAddrsAvail : Nat := 2
def STATUS_NoBinding : Nat := 3

/-! ## Sanity check (spec section 4.6) -/

/-- Tri-state expectation for the presence of Client-Id / Server-Id. -/
inductive RequirementLevel where
  | mandatory
  | optional
  | forbidden
deriving DecidableEq, Repr

/-- Modelled from the spec: one option against its expectation: fails when
a Mandatory option is absent, a Forbidden option is present, or the option
that should be unique appears more than once (spec section 4.6,
"Sanity check"). `cnt` is the number of occurrences of the option. -/
def levelOk (cnt : Nat) : RequirementLevel → Bool
  | .mandatory => decide (cnt = 1)
  | .optional => decide (cnt ≤ 1)
  | .forbidden => decide (cnt = 0)

/-- Modelled from the spec: sanityCheck(packet, clientid, serverid)
(spec section 4.6); `true` means the packet passes, `false` that
RFCViolation is raised. -/
def sanityCheck (pkt : Pkt) (cl sv : RequirementLevel) : Bool :=
  levelOk pkt.clientIds.length cl && levelOk pkt.serverIds.length sv

/-! ## Subnet selection (spec section 4.3) -/

/-- fe80::/10: the top ten bits are 1111111010. -/
def isLinkLocal (a : Nat) : Bool :=
  decide (a / 2 ^ 118 = 0x3FA)

/-- Modelled from the spec: selection by source (or relay link-) address
(spec section 4.3 rules 3 and 4), together with the single-subnet
link-local special case that Dhcpv6SrvTest.selectSubnetAddr CASE 1
asserts (dhcp6_srv_unittest.cc:1590-1599): with exactly one configured
subnet a link-local source selects that subnet. -/
def getSubnet6ByAddr (cfg : List Subnet) (a : Nat) : Option Subnet :=
  if isLinkLocal a then
    if cfg.length = 1 then cfg.head? else none
  else
    cfg.find? (fun s => s.inRangeB a)

/-- Selection by receiving interface name (spec section 4.3 rule 2): the
first subnet whose configured interface name matches; nothing when the
packet carries no interface name. -/
def getSubnet6ByIface (cfg : List Subnet) (iface : String) : Option Subnet :=
  if iface = "" then none
  else cfg.find? (fun s => decide (s.iface = some iface))

/-- Relay-based selection (spec section 4.3 rule 1): for the innermost
relay, an interface-id match wins over a link-address match. -/
def getSubnet6ByRelay (cfg : List Subnet) (inner : RelayInfo) : Option Subnet :=
  match inner.ifaceId with
  | some iid =>
    match cfg.find? (fun s => decide (s.ifaceId = some iid)) with
    | some s => some s
    | none => cfg.find? (fun s => s.inRangeB inner.linkaddr)
  | none => cfg.find? (fun s => s.inRangeB inner.linkaddr)

/-- Modelled from the spec: selectSubnet(packet) (spec section 4.3):
relay-based selection when the relay stack is non-empty; otherwise the
interface name, then the source address. -/
def selectSubnet (cfg : List Subnet) (pkt : Pkt) : Option Subnet :=
  match pkt.relays.getLast? with
  | some inner => getSubnet6ByRelay cfg inner
  | none =>
    match getSubnet6ByIface cfg pkt.iface with
    | some s => some s
    | none => getSubnet6ByAddr cfg pkt.remoteAddr

/-! ## Allocation engine

The allocation engine is not part of the sample either.  It is modelled
from spec section 4.6 ("pick an address: if the client supplied a hint and
that address is inside a pool of the selected subnet and currently free,
offer it; else offer any free address from the subnet's pools") with the
iterative candidate choice that Dhcpv6SrvTest.ManySolicits pins
(dhcp6_srv_unittest.cc:889-954): the server remembers the last address it
handed out per subnet, so consecutive SOLICITs advertise distinct
addresses even though SOLICIT records no lease. -/

/-- Server-side mutable state: the lease store plus, per subnet id, the
last address picked by the iterative allocator. -/
structure SrvState where
  db : LeaseDB
  lastAlloc : List (Nat × Nat)
deriving DecidableEq, Repr

def getLastAlloc (st : SrvState) (sid : Nat) : Option Nat :=
  (st.lastAlloc.find? (fun kv => decide (kv.1 = sid))).map (fun kv => kv.2)

def setLastAlloc (st : SrvState) (sid : Nat) (a : Nat) : SrvState :=
  { st with lastAlloc := (sid, a) :: st.lastAlloc.filter (fun kv => decide (kv.1 ≠ sid)) }

/-- Modelled from the spec: the iterative candidate choice.  Starting
from the previous pick, the next address of the same pool; at the end of a
pool, the first address of the next pool (cyclically); with no previous
pick (or a previous pick outside every pool), the first address of the
first pool. -/
def pickAddress (pools : List Pool) (last : Option Nat) : Option Nat :=
  match pools with
  | [] => none
  | p0 :: _ =>
    match last with
    | none => some p0.first
    | some la =>
      match pools.findIdx? (fun p => p.containsB la) with
      | none => some p0.first
      | some i =>
        let p := pools.getD i p0
        if la + 1 ≤ p.last then some (la + 1)
        else some ((pools.getD ((i + 1) % pools.length) p0).first)

/-- The candidate loop: pick a candidate, accept it when no lease holds
it, otherwise advance and retry.  Returns the accepted address (if any)
and the allocator position after the loop. -/
def allocLoop (db : LeaseDB) (pools : List Pool) (last : Option Nat) :
    Nat → Option Nat × Option Nat
  | 0 => (none, last)
  | fuel + 1 =>
    match pickAddress pools last with
    | none => (none, last)
    | some cand =>
      if (getLease6ByAddr db cand).isSome then allocLoop db pools (some cand) fuel
      else (some cand, some cand)

/-- The lease created for a fresh allocation: the subnet's T1, T2,
preferred and valid lifetimes, the subnet id, cltt = now
(spec sections 3 and 4.6). -/
def mkLease (sn : Subnet) (d : Duid) (iaid : Nat) (a : Nat) (now : Nat) : Lease :=
  { addr := a, duid := d, iaid := iaid, t1 := sn.t1, t2 := sn.t2,
    preferred := sn.preferred, valid := sn.valid, subnetId := sn.id, cltt := now }

/-- Modelled from the spec: allocate one address for one IA_NA
(spec section 4.6).  A hint inside a pool and currently free is taken;
otherwise the iterative loop searches the pools.  With `fake = true`
(SOLICIT) no lease is recorded; with `fake = false` (REQUEST) the new
lease is inserted into the store. -/
def allocateAddress (fake : Bool) (sn : Subnet) (d : Duid) (iaid : Nat)
    (hint : Option Nat) (now : Nat) (st : SrvState) : Option Nat × SrvState :=
  let commit : Nat → SrvState → SrvState := fun a s =>
    if fake then s else { s with db := s.db ++ [mkLease sn d iaid a now] }
  match hint with
  | some h =>
    if sn.inPoolB h && !(getLease6ByAddr st.db h).isSome then (some h, commit h st)
    else
      match allocLoop st.db sn.pools (getLastAlloc st sn.id) (st.db.length + 1) with
      | (some a, la) => (some a, commit a (setLastAlloc st sn.id (la.getD a)))
      | (none, _) => (none, st)
  | none =>
    match allocLoop st.db sn.pools (getLastAlloc st sn.id) (st.db.length + 1) with
    | (some a, la) => (some a, commit a (setLastAlloc st sn.id (la.getD a)))
    | (none, _) => (none, st)

/-- The IA_NA answer for a successful allocation: the client IAID, the
subnet's T1 and T2 on the IA, the subnet's preferred and valid lifetimes
on the IA-Address (spec section 4.6). -/
def okIaReply (sn : Subnet) (iaid : Nat) (a : Nat) : IaNaReply :=
  { iaid := iaid, t1 := sn.t1, t2 := sn.t2,
    iaaddr := some { addr := a, preferred := sn.preferred, valid := sn.valid },
    status := none }

/-- The IA_NA answer refusing an IA: IAID preserved, T1 = T2 = 0, no
IA-Address, the given status code (spec section 4.6). -/
def nakIaReply (iaid status : Nat) : IaNaReply :=
  { iaid := iaid, t1 := 0, t2 := 0, iaaddr := none, status := some status }

/-- Allocation for each IA_NA of the request in order, threading the
server state; an IA whose allocation fails gets NoAddrsAvail
(spec section 4.6). -/
def allocIAs (fake : Bool) (sn : Subnet) (d : Duid) (now : Nat) (st : SrvState) :
    List IaNaOpt → List IaNaReply × SrvState
  | [] => ([], st)
  | ia :: rest =>
    let r := allocateAddress fake sn d ia.iaid (ia.iaaddr.map (fun x => x.addr)) now st
    let ria := match r.1 with
      | some a => okIaReply sn ia.iaid a
      | none => nakIaReply ia.iaid STATUS_NoAddrsAvail
    let rr := allocIAs fake sn d now r.2 rest
    (ria :: rr.1, rr.2)

/-! ## Message processors (spec section 4.6) -/

/-- The client DUID of a packet that passed a sanity check requiring the
Client-Id (the first Client-Id option's payload). -/
def clientDuid (pkt : Pkt) : Duid := pkt.clientIds.headD []

/-- Reply skeleton: originating transaction id, Server-Id, echoed
Client-Id (spec section 4.6, "Reply framing invariants"). -/
def mkReply (mt : Nat) (serverDuid : Duid) (pkt : Pkt) (ias : List IaNaReply)
    (msgStatus : Option Nat) : Reply :=
  { msgType := mt, transid := pkt.transid, clientId := pkt.clientIds.head?,
    serverId := serverDuid, ias := ias, msgStatus := msgStatus }

/-- Modelled from the spec: SOLICIT -> ADVERTISE (spec section 4.6).
Sanity (Client-Id mandatory, Server-Id forbidden); with no subnet an
ADVERTISE echoing each IA_NA with T1 = T2 = 0, no IA-Address and
Status-Code NoAddrsAvail; otherwise one fake (unrecorded) allocation per
IA_NA. -/
def processSolicit (cfg : List Subnet) (serverDuid : Duid) (now : Nat)
    (st : SrvState) (pkt : Pkt) : Option Reply × SrvState :=
  if !sanityCheck pkt .mandatory .forbidden then (none, st)
  else
    match selectSubnet cfg pkt with
    | none =>
      (some (mkReply DHCPV6_ADVERTISE serverDuid pkt
        (pkt.ias.map (fun ia => nakIaReply ia.iaid STATUS_NoAddrsAvail)) none), st)
    | some sn =>
      let r := allocIAs true sn (clientDuid pkt) now st pkt.ias
      (some (mkReply DHCPV6_ADVERTISE serverDuid pkt r.1 none), r.2)

/-- Modelled from the spec: REQUEST -> REPLY (spec section 4.6).  As
SOLICIT but Client-Id and Server-Id mandatory, the Server-Id must match
this server's DUID, a successful allocation inserts a lease into the
store, and no subnet or exhausted pool yields Status-Code NoAddrsAvail at
the IA_NA level. -/
def processRequest (cfg : List Subnet) (serverDuid : Duid) (now : Nat)
    (st : SrvState) (pkt : Pkt) : Option Reply × SrvState :=
  if !sanityCheck pkt .mandatory .mandatory then (none, st)
  else if pkt.serverIds.head? ≠ some serverDuid then (none, st)
  else
    match selectSubnet cfg pkt with
    | none =>
      (some (mkReply DHCPV6_REPLY serverDuid pkt
        (pkt.ias.map (fun ia => nakIaReply ia.iaid STATUS_NoAddrsAvail)) none), st)
    | some sn =>
      let r := allocIAs false sn (clientDuid pkt) now st pkt.ias
      (some (mkReply DHCPV6_REPLY serverDuid pkt r.1 none), r.2)

/-- RENEW handling of one IA_NA against the store (spec section 4.6): the
binding is looked up by (client DUID, IAID, subnet id); when found and the
IA-Address matches the stored address (or the IA carries none), T1, T2,
preferred, valid and cltt are refreshed and persisted; otherwise
NoBinding, no IA-Address, T1 = T2 = 0, store untouched. -/
def renewIA (sn : Subnet) (d : Duid) (now : Nat) (db : LeaseDB) (ia : IaNaOpt) :
    IaNaReply × LeaseDB :=
  match getLease6ByClient db d ia.iaid sn.id with
  | none => (nakIaReply ia.iaid STATUS_NoBinding, db)
  | some l =>
    let addrOk := match ia.iaaddr with
      | none => true
      | some h => decide (h.addr = l.addr)
    if addrOk then
      let l' := { l with t1 := sn.t1, t2 := sn.t2, preferred := sn.preferred,
                         valid := sn.valid, cltt := now }
      (okIaReply sn ia.iaid l.addr, updateLease db l')
    else (nakIaReply ia.iaid STATUS_NoBinding, db)

def renewIAs (sn : Subnet) (d : Duid) (now : Nat) (db : LeaseDB) :
    List IaNaOpt → List IaNaReply × LeaseDB
  | [] => ([], db)
  | ia :: rest =>
    let r := renewIA sn d now db ia
    let rr := renewIAs sn d now r.2 rest
    (r.1 :: rr.1, rr.2)

/-- Modelled from the spec: RENEW -> REPLY (spec section 4.6).  Sanity
(both ids mandatory); without a selected subnet each IA_NA is answered
NoBinding (Dhcpv6SrvTest.RenewNoSubnet); otherwise each IA_NA is renewed
against the store. -/
def processRenew (cfg : List Subnet) (serverDuid : Duid) (now : Nat)
    (st : SrvState) (pkt : Pkt) : Option Reply × SrvState :=
  if !sanityCheck pkt .mandatory .mandatory then (none, st)
  else
    match selectSubnet cfg pkt with
    | none =>
      (some (mkReply DHCPV6_REPLY serverDuid pkt
        (pkt.ias.map (fun ia => nakIaReply ia.iaid STATUS_NoBinding)) none), st)
    | some sn =>
      let r := renewIAs sn (clientDuid pkt) now st.db pkt.ias
      (some (mkReply DHCPV6_REPLY serverDuid pkt r.1 none), { st with db := r.2 })

/-- RELEASE handling of one IA_NA (spec section 4.6): the binding is
looked up by the released address; when found and owned by the requesting
DUID and IAID it is deleted and the IA gets Status-Code Success (and never
an IA-Address); otherwise NoBinding.  The Bool reports success, for the
message-level status. -/
def releaseIA (d : Duid) (db : LeaseDB) (ia : IaNaOpt) :
    IaNaReply × LeaseDB × Bool :=
  match ia.iaaddr with
  | none => (nakIaReply ia.iaid STATUS_NoBinding, db, false)
  | some h =>
    match getLease6ByAddr db h.addr with
    | none => (nakIaReply ia.iaid STATUS_NoBinding, db, false)
    | some l =>
      if l.duid = d ∧ l.iaid = ia.iaid then
        (nakIaReply ia.iaid STATUS_Success, deleteLease db h.addr, true)
      else (nakIaReply ia.iaid STATUS_NoBinding, db, false)

def releaseIAs (d : Duid) (db : LeaseDB) :
    List IaNaOpt → List IaNaReply × LeaseDB × Bool
  | [] => ([], db, true)
  | ia :: rest =>
    let r := releaseIA d db ia
    let rr := releaseIAs d r.2.1 rest
    (r.1 :: rr.1, rr.2.1, r.2.2 && rr.2.2)

/-- Modelled from the spec: RELEASE -> REPLY (spec section 4.6).  Sanity
(both ids mandatory); every binding owned by the requesting DUID and IAID
is deleted; the message-level Status-Code is Success exactly when every
IA succeeded, NoBinding otherwise. -/
def processRelease (serverDuid : Duid) (st : SrvState) (pkt : Pkt) :
    Option Reply × SrvState :=
  if !sanityCheck pkt .mandatory .mandatory then (none, st)
  else
    let r := releaseIAs (clientDuid pkt) st.db pkt.ias
    (some (mkReply DHCPV6_REPLY serverDuid pkt r.1
      (some (if r.2.2 then STATUS_Success else STATUS_NoBinding))),
     { st with db := r.2.1 })

/-! ## Hook points (spec section 4.6, "Hook points")

The hooks manager is not part of the sample; the pipeline is modelled
from spec section 4.6: callouts fire on receive, on subnet-select and on
send; each may mutate its argument and may set a `skip` flag on its
handle.  A callout is embedded as a function returning the possibly
mutated argument together with the final value of its skip flag. -/

/-- Per-type dispatch of the processor (spec section 2, control flow). -/
def dispatch (cfg : List Subnet) (serverDuid : Duid) (now : Nat)
    (st : SrvState) (pkt : Pkt) : Option Reply × SrvState :=
  if pkt.msgType = DHCPV6_SOLICIT then processSolicit cfg serverDuid now st pkt
  else if pkt.msgType = DHCPV6_REQUEST then processRequest cfg serverDuid now st pkt
  else if pkt.msgType = DHCPV6_RENEW then processRenew cfg serverDuid now st pkt
  else if pkt.msgType = DHCPV6_RELEASE then processRelease serverDuid st pkt
  else (none, st)

/-- Modelled from the spec: one pass of the receive loop with the
pkt6_receive and pkt6_send callouts.  `skip` set in pkt6_receive discards
the packet silently (no reply); `skip` set in pkt6_send drops the reply
(nothing is transmitted).  The first component is the packet actually
transmitted, if any. -/
def handlePacket (recvCO : Pkt → Pkt × Bool) (sendCO : Reply → Reply × Bool)
    (cfg : List Subnet) (serverDuid : Duid) (now : Nat)
    (st : SrvState) (pkt : Pkt) : Option Reply × SrvState :=
  let rc := recvCO pkt
  if rc.2 then (none, st)
  else
    match dispatch cfg serverDuid now st rc.1 with
    | (none, st') => (none, st')
    | (some rep, st') =>
      let sc := sendCO rep
      if sc.2 then (none, st') else (some sc.1, st')

/-- Modelled from the spec: the subnet6_select hook point.  The callout
receives the registry's candidate and may replace it; `skip` set keeps
the pre-callout selection. -/
def selectSubnetHooked (co : Option Subnet → Option Subnet × Bool)
    (cfg : List Subnet) (pkt : Pkt) : Option Subnet :=
  let pre := selectSubnet cfg pkt
  let r := co pre
  if r.2 then pre else r.1

/-! ## IA-Prefix option codec (spec section 4.1)

option6_iaprefix.cc is not part of the sample; the codec is modelled from
spec section 4.1: "IA-Prefix holds preferred, valid, prefix-length,
16-byte address.  Prefix parsing policy: for a prefix of length L < 128,
bits beyond position L MUST be cleared on parse; length must be <= 128
else BadValue; the payload is fixed at 25 bytes else OutOfRange." -/

/-- Error kinds of the option codec constructors (spec section 7). -/
inductive CodecError where
  | outOfRange
  | badValue
deriving DecidableEq, Repr

/-- An IOAddress is either a v4 or a v6 address. -/
inductive IOAddress where
  | v4 (a : Nat)
  | v6 (a : Nat)
deriving DecidableEq, Repr

/-- The parsed / to-be-packed IA-Prefix option body. -/
structure IaPrefixOption where
  typeCode : Nat
  preferred : Nat
  valid : Nat
  prefixLen : Nat
  prefixAddr : Nat
deriving DecidableEq, Repr

/-- Reads `n` bytes big-endian at offset `off`. -/
def readBE (bytes : List Nat) (off n : Nat) : Nat :=
  (List.range n).foldl (fun acc i => acc * 256 + bytes.getD (off + i) 0) 0

/-- Clears the bits of the 128-bit address beyond position `len`
(positions counted from the most significant bit). -/
def clearUnusedBits (a : Nat) (len : Nat) : Nat :=
  (a >>> (128 - len)) <<< (128 - len)

/-- Modelled from the spec: parsing the fixed 25-byte IA-Prefix payload:
4 bytes preferred, 4 bytes valid, 1 byte prefix length, 16 bytes address
with the bits beyond the prefix length cleared; a shorter payload raises
OutOfRange (spec section 4.1). -/
def unpackIaPrefixOption (typeCode : Nat) (bytes : List Nat) :
    Except CodecError IaPrefixOption :=
  if bytes.length < 25 then .error .outOfRange
  else .ok { typeCode := typeCode,
             preferred := readBE bytes 0 4,
             valid := readBE bytes 4 4,
             prefixLen := bytes.getD 8 0,
             prefixAddr := clearUnusedBits (readBE bytes 9 16) (bytes.getD 8 0) }

/-- Writes `v` as `n` big-endian bytes. -/
def natToBytesBE (n v : Nat) : List Nat :=
  (List.range n).reverse.map (fun i => v / 256 ^ i % 256)

/-- Packs the 25-byte IA-Prefix payload. -/
def packIaPrefixOption (o : IaPrefixOption) : List Nat :=
  natToBytesBE 4 o.preferred ++ natToBytesBE 4 o.valid
    ++ [o.prefixLen] ++ natToBytesBE 16 o.prefixAddr

/-- Modelled from the spec: the IA-Prefix constructor taking an address
value: a non-IPv6 address or a prefix length above 128 raises BadValue
(spec sections 4.1 and 7); the address is stored as given (the clearing
is a parse-time policy, per Option6IAPrefixTest.build). -/
def buildIaPrefixOption (typeCode : Nat) (addr : IOAddress)
    (len preferred valid : Nat) : Except CodecError IaPrefixOption :=
  match addr with
  | .v4 _ => .error .badValue
  | .v6 a =>
    if 128 < len then .error .badValue
    else .ok { typeCode := typeCode, preferred := preferred, valid := valid,
               prefixLen := len, prefixAddr := a }

/-! ## Concrete fixtures from the unit tests -/

/-- The subnet of the Dhcpv6SrvTest fixture: `2001:db8:1::/48`,
T1 = 1000, T2 = 2000, preferred = 3000, valid = 4000, with the pool
`2001:db8:1:1::/64` (dhcp6_srv_unittest.cc:321-329). -/
def testSubnet : Subnet :=
  { prefixAddr := mkAddr 0x2001 0xdb8 1 0 0 0 0 0, prefixLen := 48,
    t1 := 1000, t2 := 2000, preferred := 3000, valid := 4000,
    pools := [mkPool64 (mkAddr 0x2001 0xdb8 1 1 0 0 0 0)],
    iface := none, ifaceId := none, id := 1 }

/-- subnet1 of Dhcpv6SrvTest.selectSubnetAddr: `2001:db8:1::/48` with
lifetimes 1, 2, 3, 4 (dhcp6_srv_unittest.cc:1586). -/
def cexSubnet1 : Subnet :=
  { prefixAddr := mkAddr 0x2001 0xdb8 1 0 0 0 0 0, prefixLen := 48,
    t1 := 1, t2 := 2, preferred := 3, valid := 4,
    pools := [], iface := none, ifaceId := none, id := 1 }

/-- A SOLICIT as the tests build it: one Client-Id, no Server-Id, one
IA_NA with T1 = 1500, T2 = 3000 and an optional IA-Address hint, sent
from the given source address on no particular interface
(dhcp6_srv_unittest.cc:747-755, 889-911). -/
def solicitPkt (xid : Nat) (d : Duid) (iaid : Nat) (hint : Option IAAddrOpt)
    (src : Addr) : Pkt :=
  { msgType := DHCPV6_SOLICIT, transid := xid, clientIds := [d],
    serverIds := [], ias := [{ iaid := iaid, t1 := 1500, t2 := 3000, iaaddr := hint }],
    remoteAddr := src, iface := "", relays := [] }

/-- The direct link-local packet of Dhcpv6SrvTest.selectSubnetAddr
CASE 1 and CASE 3: a SOLICIT from `fe80::abcd`
(dhcp6_srv_unittest.cc:1595-1596). -/
def cexPkt : Pkt :=
  { msgType := DHCPV6_SOLICIT, transid := 1234, clientIds := [[1, 2, 3]],
    serverIds := [], ias := [], remoteAddr := mkAddr 0xfe80 0 0 0 0 0 0 0xabcd,
    iface := "", relays := [] }

/-- A stored lease used in the store-invariant counterexample. -/
def cexLease1 : Lease :=
  { addr := 100, duid := [1, 2], iaid := 7, t1 := 10, t2 := 20,
    preferred := 30, valid := 40, subnetId := 1, cltt := 0 }

/-- A second lease for the same (DUID, IAID, subnet-id) under a fresh
address. -/
def cexLease2 : Lease :=
  { addr := 101, duid := [1, 2], iaid := 7, t1 := 10, t2 := 20,
    preferred := 30, valid := 40, subnetId := 1, cltt := 0 }

/-- Link-local source addresses used by the tests
(`fe80::abcd`, `fe80::1223`, `fe80::3467`). -/
def testSrc1 : Addr := mkAddr 0xfe80 0 0 0 0 0 0 0xabcd

def testSrc2 : Addr := mkAddr 0xfe80 0 0 0 0 0 0 0x1223

def testSrc3 : Addr := mkAddr 0xfe80 0 0 0 0 0 0 0x3467

/-- A server DUID for concrete runs. -/
def testServerDuid : Duid := [9, 9]

/-- A client DUID as generateClientId builds it (leading bytes 100,
101, 102, ...). -/
def testClientDuid : Duid := [100, 101, 102]

/-- The fresh server state: empty store, no allocator position. -/
def st0 : SrvState := { db := [], lastAlloc := [] }

/-- The IA-Address hint of SolicitHint / RequestBasic:
`2001:db8:1:1::dead:beef` with preferred 300 and valid 500
(dhcp6_srv_unittest.cc:799-801). -/
def testHint : IAAddrOpt :=
  { addr := mkAddr 0x2001 0xdb8 1 1 0 0 0xdead 0xbeef, preferred := 300, valid := 500 }

/-- The IA_NA of RequestBasic: iaid 234, T1 1500, T2 3000, hint above. -/
def testIaReq : IaNaOpt :=
  { iaid := 234, t1 := 1500, t2 := 3000, iaaddr := some testHint }

/-- The REQUEST of Dhcpv6SrvTest.RequestBasic
(dhcp6_srv_unittest.cc:971-989). -/
def testRequestPkt : Pkt :=
  { msgType := DHCPV6_REQUEST, transid := 1234, clientIds := [testClientDuid],
    serverIds := [testServerDuid], ias := [testIaReq],
    remoteAddr := testSrc1, iface := "", relays := [] }

/-- The RENEW of Dhcpv6SrvTest.RenewBasic, same options
(dhcp6_srv_unittest.cc:1140-1151). -/
def testRenewPkt : Pkt := { testRequestPkt with msgType := DHCPV6_RENEW }

/-- The RELEASE of Dhcpv6SrvTest.ReleaseBasic, same options
(dhcp6_srv_unittest.cc:1334-1345). -/
def testReleasePkt : Pkt := { testRequestPkt with msgType := DHCPV6_RELEASE }

/-- The lease the RENEW and RELEASE tests preload, with deliberately
stale timers (dhcp6_srv_unittest.cc:1123-1126). -/
def preloadLease : Lease :=
  { addr := testHint.addr, duid := testClientDuid, iaid := 234, t1 := 501,
    t2 := 502, preferred := 503, valid := 504, subnetId := 1, cltt := 1234 }

/-- The 25-byte example payload of Option6IAPrefixTest::setExampleBuffer:
preferred 1000, valid 3000000000, prefix length 77, address
`2001:db8:1:0:afaf:0:dead:beef` (option6_iaprefix_unittest.cc:50-79). -/
def exampleIaPrefixBuf : List Nat :=
  [0x00, 0x00, 0x03, 0xe8,
   0xb2, 0xd0, 0x5e, 0x00,
   77,
   0x20, 0x01, 0x0d, 0xb8, 0x00, 0x01, 0x00, 0x00,
   0xaf, 0xaf, 0x00, 0x00, 0xde, 0xad, 0xbe, 0xef]

/-- The same payload after clearing the bits beyond position 77, the
on-wire form the test expects after repacking
(option6_iaprefix_unittest.cc:154-158). -/
def exampleIaPrefixCleared : List Nat :=
  [0x00, 0x00, 0x03, 0xe8,
   0xb2, 0xd0, 0x5e, 0x00,
   77,
   0x20, 0x01, 0x0d, 0xb8, 0x00, 0x01, 0x00, 0x00,
   0xaf, 0xa8, 0x00, 0x00, 0x00, 0x00, 0x00, 0x00]

/-- The number of stored leases whose address lies in [lo, hi]: the
occupancy of an address range, used to state that a pool is not
exhausted. -/
def leasesInRange (db : LeaseDB) (lo hi : Nat) : Nat :=
  (db.filter (fun l => decide (lo ≤ l.addr ∧ l.addr ≤ hi))).length

/-- The content of one answered IA_NA of an ADVERTISE, as spec section
4.6 states it relative to the store the SOLICIT was processed against:
the client IAID is preserved and an address is offered; the offered
IA-Address carries the subnet's T1, T2, preferred and valid, lies in a
pool of the subnet, is currently free, and equals the client's hint
whenever that hint was inside a pool and free. -/
def SolicitIaProp (db : LeaseDB) (sn : Subnet) (ia : IaNaOpt) (ria : IaNaReply) : Prop :=
  ria.iaid = ia.iaid ∧
  ∃ ao, ria.iaaddr = some ao ∧
    ria.t1 = sn.t1 ∧ ria.t2 = sn.t2 ∧
    ao.preferred = sn.preferred ∧ ao.valid = sn.valid ∧
    sn.inPoolB ao.addr = true ∧ getLease6ByAddr db ao.addr = none ∧
    (∀ hv, ia.iaaddr = some hv → sn.inPoolB hv.addr = true →
      getLease6ByAddr db hv.addr = none → ao.addr = hv.addr)

/-! ## Lemmas about the lease store -/

theorem getLease6ByAddr_eq_none {db : LeaseDB} {a : Addr} :
    getLease6ByAddr db a = none ↔ ∀ l ∈ db, l.addr ≠ a := by
  simp [getLease6ByAddr, List.find?_eq_none]

theorem getLease6ByAddr_append_free {db : LeaseDB} {l : Lease}
    (h : getLease6ByAddr db l.addr = none) :
    getLease6ByAddr (db ++ [l]) l.addr = some l := by
  unfold getLease6ByAddr at h ⊢
  rw [List.find?_append, h]
  simp [List.find?]

theorem addrUnique_append {db : LeaseDB} {l : Lease} (hu : AddrUnique db)
    (hf : getLease6ByAddr db l.addr = none) : AddrUnique (db ++ [l]) := by
  have hmem := getLease6ByAddr_eq_none.mp hf
  unfold AddrUnique at hu ⊢
  rw [List.map_append, List.nodup_append]
  refine ⟨hu, List.nodup_singleton _, ?_⟩
  intro x hx hy
  simp only [List.map_cons, List.map_nil, List.mem_singleton] at hy
  simp only [List.mem_map] at hx
  obtain ⟨y, hy1, hy2⟩ := hx
  exact hmem y hy1 (hy2.trans hy)

theorem map_addr_updateLease (db : LeaseDB) (l : Lease) :
    (updateLease db l).map (fun x => x.addr) = db.map (fun x => x.addr) := by
  unfold updateLease
  rw [List.map_map]
  apply List.map_congr_left
  intro x _
  by_cases h : x.addr = l.addr
  · simp [Function.comp, h]
  · simp [Function.comp, h]

theorem addrUnique_updateLease {db : LeaseDB} (hu : AddrUnique db) (l : Lease) :
    AddrUnique (updateLease db l) := by
  unfold AddrUnique at hu ⊢
  rw [map_addr_updateLease]
  exact hu

theorem addrUnique_deleteLease {db : LeaseDB} (hu : AddrUnique db) (a : Addr) :
    AddrUnique (deleteLease db a) :=
  List.Nodup.sublist (List.Sublist.map _ (List.filter_sublist db)) hu

theorem addLease_duplicate_iff {db : LeaseDB} {l : Lease} :
    addLease db l = .duplicate ↔ (getLease6ByAddr db l.addr).isSome = true := by
  unfold addLease
  split <;> simp_all

theorem addLease_ok_addrUnique {db : LeaseDB} {l : Lease} {db2 : LeaseDB}
    (hu : AddrUnique db) (h : addLease db l = .ok db2) : AddrUnique db2 := by
  unfold addLease at h
  split at h
  · exact absurd h (by simp)
  · cases h
    exact addrUnique_append hu (Option.not_isSome_iff_eq_none.mp (by assumption))

/-! ## Lemmas about the allocator -/

theorem pickAddress_mem {pools : List Pool} {last : Option Addr} {a : Addr}
    (hwf : poolsWF pools) (h : pickAddress pools last = some a) :
    pools.any (fun p => p.containsB a) = true := by
  match pools, h with
  | p0 :: rest, h =>
    have h0 : (p0 :: rest).any (fun p => p.containsB p0.first) = true := by
      simp only [List.any_eq_true]
      exact ⟨p0, List.mem_cons_self _ _, by
        simp [Pool.containsB, hwf p0 (List.mem_cons_self _ _)]⟩
    unfold pickAddress at h
    match last, h with
    | none, h => cases h; exact h0
    | some la, h =>
      simp only at h
      cases hidx : (p0 :: rest).findIdx? (fun p => p.containsB la) with
      | none => rw [hidx] at h; cases h; exact h0
      | some i =>
        rw [hidx] at h
        obtain ⟨hlt, hpi, _⟩ := List.findIdx?_eq_some_iff_getElem.mp hidx
        simp only at h
        split at h
        · rename_i hle
          cases h
          have hgd : (p0 :: rest).getD i p0 = (p0 :: rest)[i] := by
            rw [List.getD_eq_getElem?_getD, List.getElem?_eq_getElem hlt]; rfl
          rw [hgd] at hle
          simp only [List.any_eq_true]
          refine ⟨(p0 :: rest)[i], List.getElem_mem hlt, ?_⟩
          simp only [Pool.containsB, decide_eq_true_eq] at hpi ⊢
          exact ⟨Nat.le_succ_of_le hpi.1, hle⟩
        · cases h
          have hpos : 0 < (p0 :: rest).length := by simp
          have hlt2 : (i + 1) % (p0 :: rest).length < (p0 :: rest).length :=
            Nat.mod_lt _ hpos
          have hgd : (p0 :: rest).getD ((i + 1) % (p0 :: rest).length) p0
              = (p0 :: rest)[(i + 1) % (p0 :: rest).length] := by
            rw [List.getD_eq_getElem?_getD, List.getElem?_eq_getElem hlt2]; rfl
          rw [hgd]
          simp only [List.any_eq_true]
          refine ⟨_, List.getElem_mem hlt2, ?_⟩
          simp only [Pool.containsB, decide_eq_true_eq]
          exact ⟨le_refl _, hwf _ (List.getElem_mem hlt2)⟩

theorem allocLoop_some {db : LeaseDB} {pools : List Pool} :
    ∀ {fuel : Nat} {last : Option Addr} {a : Addr} {la : Option Addr},
    allocLoop db pools last fuel = (some a, la) →
    getLease6ByAddr db a = none ∧ la = some a ∧
      (poolsWF pools → pools.any (fun p => p.containsB a) = true) := by
  intro fuel
  induction fuel with
  | zero => intro last a la h; simp [allocLoop] at h
  | succ n ih =>
    intro last a la h
    unfold allocLoop at h
    cases hp : pickAddress pools last with
    | none => rw [hp] at h; simp at h
    | some cand =>
      rw [hp] at h
      simp only at h
      split at h
      · exact ih h
      · cases h
        refine ⟨Option.not_isSome_iff_eq_none.mp (by assumption), rfl, ?_⟩
        intro hwf
        exact pickAddress_mem hwf hp

/-- A successful allocation hands out an address that is free in the
incoming store and lies in a pool of the subnet; it extends the store by
exactly the new lease when `fake = false` and leaves it untouched when
`fake = true`. -/
theorem allocateAddress_some {fake : Bool} {sn : Subnet} {d : Duid} {iaid : Nat}
    {hint : Option Addr} {now : Nat} {st : SrvState} {a : Addr} {st' : SrvState}
    (h : allocateAddress fake sn d iaid hint now st = (some a, st')) :
    getLease6ByAddr st.db a = none ∧
    (poolsWF sn.pools → sn.inPoolB a = true) ∧
    st'.db = (if fake then st.db else st.db ++ [mkLease sn d iaid a now]) := by
  unfold allocateAddress at h
  have commitDb : ∀ (x : Addr) (s : SrvState), s.db = st.db →
      ((if fake then s else { s with db := s.db ++ [mkLease sn d iaid x now] }).db
        = if fake then st.db else st.db ++ [mkLease sn d iaid x now]) := by
    intro x s hs; cases fake <;> simp [hs]
  match hint, h with
  | some hv, h =>
    simp only at h
    split at h
    · rename_i hcond
      rw [Bool.and_eq_true, Bool.not_eq_true'] at hcond
      have hnone : getLease6ByAddr st.db hv = none :=
        Option.not_isSome_iff_eq_none.mp (by simp [hcond.2])
      cases h
      refine ⟨hnone, fun _ => hcond.1, commitDb _ _ rfl⟩
    · cases hloop : allocLoop st.db sn.pools (getLastAlloc st sn.id) (st.db.length + 1) with
      | mk res la =>
        rw [hloop] at h
        match res, h with
        | some b, h =>
          simp only at h
          cases h
          obtain ⟨hfree, _, hin⟩ := allocLoop_some hloop
          exact ⟨hfree, fun hwf => by simp [Subnet.inPoolB, hin hwf], commitDb _ _ rfl⟩
  | none, h =>
    simp only at h
    cases hloop : allocLoop st.db sn.pools (getLastAlloc st sn.id) (st.db.length + 1) with
    | mk res la =>
      rw [hloop] at h
      match res, h with
      | some b, h =>
        simp only at h
        cases h
        obtain ⟨hfree, _, hin⟩ := allocLoop_some hloop
        exact ⟨hfree, fun hwf => by simp [Subnet.inPoolB, hin hwf], commitDb _ _ rfl⟩

/-- A failed allocation leaves the state untouched. -/
theorem allocateAddress_none {fake : Bool} {sn : Subnet} {d : Duid} {iaid : Nat}
    {hint : Option Addr} {now : Nat} {st : SrvState} {st' : SrvState}
    (h : allocateAddress fake sn d iaid hint now st = (none, st')) : st' = st := by
  unfold allocateAddress at h
  match hint, h with
  | some hv, h =>
    simp only at h
    split at h
    · simp at h
    · cases hloop : allocLoop st.db sn.pools (getLastAlloc st sn.id) (st.db.length + 1) with
      | mk res la =>
        rw [hloop] at h
        match res, h with
        | none, h => simp only at h; cases h; rfl
  | none, h =>
    simp only at h
    cases hloop : allocLoop st.db sn.pools (getLastAlloc st sn.id) (st.db.length + 1) with
    | mk res la =>
      rw [hloop] at h
      match res, h with
      | none, h => simp only at h; cases h; rfl

/-- A good hint (inside a pool of the subnet and currently free) is taken
verbatim. -/
theorem allocateAddress_hint {fake : Bool} {sn : Subnet} {d : Duid} {iaid : Nat}
    {hv : Addr} {now : Nat} {st : SrvState}
    (hin : sn.inPoolB hv = true) (hfree : getLease6ByAddr st.db hv = none) :
    (allocateAddress fake sn d iaid (some hv) now st).1 = some hv := by
  unfold allocateAddress
  simp [hin, hfree]

/-- Fake allocations (SOLICIT) never touch the lease store. -/
theorem allocateAddress_fake_db {sn : Subnet} {d : Duid} {iaid : Nat}
    {hint : Option Addr} {now : Nat} {st : SrvState} :
    (allocateAddress true sn d iaid hint now st).2.db = st.db := by
  cases hr : allocateAddress true sn d iaid hint now st with
  | mk res st' =>
    match res, hr with
    | some a, hr => simpa using (allocateAddress_some hr).2.2
    | none, hr => rw [allocateAddress_none hr]

/-- A generic counting bound: two predicates that are disjoint on a list
and both below a third cannot jointly select more elements than the
third. -/
theorem length_filter_add_le {α : Type} {p q r : α → Bool} :
    ∀ (l : List α),
    (∀ x ∈ l, p x = true → r x = true) →
    (∀ x ∈ l, q x = true → r x = true) →
    (∀ x ∈ l, ¬(p x = true ∧ q x = true)) →
    (l.filter p).length + (l.filter q).length ≤ (l.filter r).length := by
  intro l
  induction l with
  | nil => intro _ _ _; simp
  | cons a t ih =>
    intro hp hq hd
    have hp2 : ∀ x ∈ t, p x = true → r x = true :=
      fun x hx => hp x (List.mem_cons_of_mem _ hx)
    have hq2 : ∀ x ∈ t, q x = true → r x = true :=
      fun x hx => hq x (List.mem_cons_of_mem _ hx)
    have hd2 : ∀ x ∈ t, ¬(p x = true ∧ q x = true) :=
      fun x hx => hd x (List.mem_cons_of_mem _ hx)
    have iht := ih hp2 hq2 hd2
    cases hpa : p a with
    | true =>
      have hra : r a = true := hp a (List.mem_cons_self _ _) hpa
      have hqa : q a = false := by
        cases hqa : q a with
        | true => exact absurd ⟨hpa, hqa⟩ (hd a (List.mem_cons_self _ _))
        | false => rfl
      simp [List.filter_cons, hpa, hqa, hra]
      omega
    | false =>
      cases hqa : q a with
      | true =>
        have hra : r a = true := hq a (List.mem_cons_self _ _) hqa
        simp [List.filter_cons, hpa, hqa, hra]
        omega
      | false =>
        cases hra : r a with
        | true =>
          simp [List.filter_cons, hpa, hqa, hra]
          omega
        | false =>
          simp [List.filter_cons, hpa, hqa, hra]
          exact iht

/-- A hit of the address index gives a member of the store at this
address. -/
theorem getLease6ByAddr_isSome_mem {db : LeaseDB} {a : Nat}
    (h : (getLease6ByAddr db a).isSome = true) :
    ∃ l, l ∈ db ∧ l.addr = a := by
  obtain ⟨l, hl⟩ := Option.isSome_iff_exists.mp h
  unfold getLease6ByAddr at hl
  refine ⟨l, List.mem_of_find?_eq_some hl, ?_⟩
  have := List.find?_some hl
  simpa using this

/-- The pigeonhole direction used for pool exhaustion: an interval of
addresses that is fully leased holds at least as many leases as
addresses. -/
theorem leasesInRange_ge {db : LeaseDB} :
    ∀ (m lo : Nat),
    (∀ a, lo ≤ a → a ≤ lo + m → (getLease6ByAddr db a).isSome = true) →
    m + 1 ≤ leasesInRange db lo (lo + m) := by
  intro m
  induction m with
  | zero =>
    intro lo hocc
    obtain ⟨l, hl, hla⟩ := getLease6ByAddr_isSome_mem (hocc lo (le_refl _) (le_refl _))
    have hmem : l ∈ db.filter (fun l => decide (lo ≤ l.addr ∧ l.addr ≤ lo + 0)) := by
      refine List.mem_filter.mpr ⟨hl, ?_⟩
      simp [hla]
    unfold leasesInRange
    have := List.length_pos_of_mem hmem
    omega
  | succ m ih =>
    intro lo hocc
    have ihh := ih (lo + 1) (fun a h1 h2 => hocc a (by omega) (by omega))
    obtain ⟨l0, hl0, hl0a⟩ :=
      getLease6ByAddr_isSome_mem (hocc lo (le_refl _) (by omega))
    have hsplit := length_filter_add_le
      (p := fun l => decide (l.addr = lo))
      (q := fun l => decide (lo + 1 ≤ l.addr ∧ l.addr ≤ lo + 1 + m))
      (r := fun l => decide (lo ≤ l.addr ∧ l.addr ≤ lo + (m + 1))) db
      (by intro x _ hx; simp only [decide_eq_true_eq] at hx ⊢; omega)
      (by intro x _ hx; simp only [decide_eq_true_eq] at hx ⊢; omega)
      (by intro x _ hx; simp only [decide_eq_true_eq] at hx; omega)
    have hone : 1 ≤ (db.filter (fun l => decide (l.addr = lo))).length := by
      have hmem : l0 ∈ db.filter (fun l => decide (l.addr = lo)) :=
        List.mem_filter.mpr ⟨hl0, by simp [hl0a]⟩
      have := List.length_pos_of_mem hmem
      omega
    unfold leasesInRange at ihh ⊢
    omega

/-- The least free address of an interval holding a free address:
everything below it (from the interval start) is leased. -/
theorem min_free {db : LeaseDB} {lo hi : Nat}
    (h : ∃ a, lo ≤ a ∧ a ≤ hi ∧ (getLease6ByAddr db a).isSome = false) :
    ∃ a, lo ≤ a ∧ a ≤ hi ∧ (getLease6ByAddr db a).isSome = false ∧
      ∀ b, lo ≤ b → b < a → (getLease6ByAddr db b).isSome = true := by
  obtain ⟨h1, h2, h3⟩ := Nat.find_spec h
  refine ⟨Nat.find h, h1, h2, h3, ?_⟩
  intro b hb1 hb2
  rcases Bool.eq_false_or_eq_true ((getLease6ByAddr db b).isSome) with hb | hb
  · exact hb
  · exact absurd ⟨hb1, by omega, hb⟩ (Nat.find_min h hb2)

/-- Single-pool pickAddress: a previous pick outside the pool restarts at
the pool first address. -/
theorem pickP_out {p : Pool} {la : Nat} (h : p.containsB la = false) :
    pickAddress [p] (some la) = some p.first := by
  unfold pickAddress
  simp [List.findIdx?_cons, h]

/-- Single-pool pickAddress: from inside the pool, short of its end, the
next address. -/
theorem pickP_next {p : Pool} {la : Nat}
    (hin : p.first ≤ la) (hlt : la + 1 ≤ p.last) :
    pickAddress [p] (some la) = some (la + 1) := by
  unfold pickAddress
  have hc : p.containsB la = true := by
    have hb : p.first ≤ la ∧ la ≤ p.last := ⟨hin, Nat.le_of_succ_le hlt⟩
    simpa [Pool.containsB] using hb
  simp only [List.findIdx?_cons, hc, if_true, List.getD_cons_zero]
  rw [if_pos hlt]

/-- Single-pool pickAddress: from the pool end, wrap to its first
address. -/
theorem pickP_wrap {p : Pool} (hwfp : p.first ≤ p.last) :
    pickAddress [p] (some p.last) = some p.first := by
  unfold pickAddress
  have hc : p.containsB p.last = true := by
    simpa [Pool.containsB] using hwfp
  simp only [List.findIdx?_cons, hc, if_true, List.getD_cons_zero]
  rw [if_neg (by omega)]
  simp

/-- The candidate loop succeeds when a free address lies ahead within the
fuel (single pool, no wrap needed). -/
theorem allocLoop_run {db : LeaseDB} {p : Pool} :
    ∀ (fuel la a : Nat), p.first ≤ la → la + 1 ≤ a → a ≤ p.last →
    (getLease6ByAddr db a).isSome = false → a - la ≤ fuel →
    ((allocLoop db [p] (some la) fuel).1).isSome = true := by
  intro fuel
  induction fuel with
  | zero => intro la a _ h1 _ _ h4; omega
  | succ n ih =>
    intro la a hf h1 h2 hfree hfuel
    have hpick : pickAddress [p] (some la) = some (la + 1) :=
      pickP_next hf (Nat.le_trans h1 h2)
    unfold allocLoop
    rw [hpick]
    simp only
    by_cases hocc : (getLease6ByAddr db (la + 1)).isSome = true
    · rw [if_pos hocc]
      have hne : a ≠ la + 1 := by
        intro he
        rw [he, hocc] at hfree
        exact Bool.noConfusion hfree
      exact ih (la + 1) a (Nat.le_succ_of_le hf) (by omega) h2 hfree (by omega)
    · rw [if_neg hocc]
      rfl

/-- With everything past the current position leased, the candidate loop
walks to the pool end, spending one candidate per step. -/
theorem allocLoop_to_end {db : LeaseDB} {p : Pool} :
    ∀ (k fuel la : Nat), p.first ≤ la → p.last = la + k → k ≤ fuel →
    (∀ b, la + 1 ≤ b → b ≤ p.last → (getLease6ByAddr db b).isSome = true) →
    allocLoop db [p] (some la) fuel = allocLoop db [p] (some p.last) (fuel - k) := by
  intro k
  induction k with
  | zero =>
    intro fuel la _ hend _ _
    have hla : la = p.last := by omega
    rw [hla, Nat.sub_zero]
  | succ k ih =>
    intro fuel la hf hend hfuel hocc
    cases fuel with
    | zero => omega
    | succ n =>
      have hpick : pickAddress [p] (some la) = some (la + 1) :=
        pickP_next hf (by omega)
      have hocc1 : (getLease6ByAddr db (la + 1)).isSome = true :=
        hocc (la + 1) (le_refl _) (by omega)
      have hstep : allocLoop db [p] (some la) (n + 1)
          = allocLoop db [p] (some (la + 1)) n := by
        conv_lhs => unfold allocLoop
        rw [hpick]
        simp only
        rw [if_pos hocc1]
      rw [hstep]
      have hrec := ih n (la + 1) (Nat.le_succ_of_le hf) (by omega) (by omega)
        (fun b hb1 hb2 => hocc b (by omega) hb2)
      rw [hrec]
      have he : n + 1 - (k + 1) = n - k := by omega
      rw [he]

/-- The candidate loop succeeds from any position whose pick restarts at
the pool first address, given the least free address of the pool and
enough fuel to reach it. -/
theorem allocLoop_from_first {db : LeaseDB} {p : Pool} {last : Option Nat}
    {a0 fuel : Nat}
    (hpick : pickAddress [p] last = some p.first)
    (h1 : p.first ≤ a0) (h2 : a0 ≤ p.last)
    (h3 : (getLease6ByAddr db a0).isSome = false)
    (hfuel : a0 - p.first < fuel) :
    ((allocLoop db [p] last fuel).1).isSome = true := by
  cases fuel with
  | zero => omega
  | succ n =>
    unfold allocLoop
    rw [hpick]
    simp only
    by_cases hocc : (getLease6ByAddr db p.first).isSome = true
    · rw [if_pos hocc]
      have hne : a0 ≠ p.first := by
        intro he
        rw [he, hocc] at h3
        exact Bool.noConfusion h3
      exact allocLoop_run n p.first a0 (le_refl _) (by omega) h2 h3 (by omega)
    · rw [if_neg hocc]
      rfl

/-- With a single pool holding more addresses than there are leases, the
candidate loop always finds a free address within `db.length + 1` steps,
from any starting position. -/
theorem allocLoop_single_success {db : LeaseDB} {p : Pool}
    (hwfp : p.first ≤ p.last) (hN : db.length ≤ p.last - p.first) :
    ∀ (last : Option Nat),
    ((allocLoop db [p] last (db.length + 1)).1).isSome = true := by
  have hEx : ∃ a, p.first ≤ a ∧ a ≤ p.last ∧
      (getLease6ByAddr db a).isSome = false := by
    by_contra hno
    have hall : ∀ a, p.first ≤ a → a ≤ p.last →
        (getLease6ByAddr db a).isSome = true := by
      intro a h1 h2
      rcases Bool.eq_false_or_eq_true ((getLease6ByAddr db a).isSome) with hb | hb
      · exact hb
      · exact absurd ⟨a, h1, h2, hb⟩ hno
    have hge := leasesInRange_ge (p.last - p.first) p.first
      (fun a h1 h2 => hall a h1 (by omega))
    have hle : leasesInRange db p.first (p.first + (p.last - p.first))
        ≤ db.length := by
      unfold leasesInRange
      exact List.length_filter_le _ _
    omega
  obtain ⟨a0, ha01, ha02, ha03, ha0min⟩ := min_free hEx
  have hcount0 : a0 - p.first ≤ db.length := by
    by_cases h0 : a0 = p.first
    · omega
    · have hge := leasesInRange_ge (a0 - 1 - p.first) p.first
        (fun b h1 h2 => ha0min b h1 (by omega))
      have hle : leasesInRange db p.first (p.first + (a0 - 1 - p.first))
          ≤ db.length := by
        unfold leasesInRange
        exact List.length_filter_le _ _
      omega
  intro last
  cases last with
  | none =>
    exact allocLoop_from_first rfl ha01 ha02 ha03 (by omega)
  | some la =>
    by_cases hc : p.containsB la = true
    · have hcb : p.first ≤ la ∧ la ≤ p.last := by
        simpa [Pool.containsB] using hc
      by_cases hfwd : ∃ b, la + 1 ≤ b ∧ b ≤ p.last ∧
          (getLease6ByAddr db b).isSome = false
      · obtain ⟨a1, ha11, ha12, ha13, ha1min⟩ := min_free hfwd
        have hfuel : a1 - la ≤ db.length + 1 := by
          by_cases h1 : a1 = la + 1
          · omega
          · have hge := leasesInRange_ge (a1 - 1 - (la + 1)) (la + 1)
              (fun b hb1 hb2 => ha1min b hb1 (by omega))
            have hle : leasesInRange db (la + 1) ((la + 1) + (a1 - 1 - (la + 1)))
                ≤ db.length := by
              unfold leasesInRange
              exact List.length_filter_le _ _
            omega
        exact allocLoop_run (db.length + 1) la a1 hcb.1 ha11 ha12 ha13 hfuel
      · have hocc : ∀ b, la + 1 ≤ b → b ≤ p.last →
            (getLease6ByAddr db b).isSome = true := by
          intro b hb1 hb2
          rcases Bool.eq_false_or_eq_true ((getLease6ByAddr db b).isSome) with hb | hb
          · exact hb
          · exact absurd ⟨b, hb1, hb2, hb⟩ hfwd
        have ha0la : a0 ≤ la := by
          by_contra hgt
          rw [hocc a0 (by omega) ha02] at ha03
          exact Bool.noConfusion ha03
        have hk : p.last - la ≤ db.length := by
          by_cases hke : la = p.last
          · omega
          · have hge := leasesInRange_ge (p.last - 1 - la) (la + 1)
              (fun b hb1 hb2 => hocc b hb1 (by omega))
            have hle : leasesInRange db (la + 1) ((la + 1) + (p.last - 1 - la))
                ≤ db.length := by
              unfold leasesInRange
              exact List.length_filter_le _ _
            omega
        have hsum : (a0 - p.first) + (p.last - la) ≤ db.length := by
          by_cases h0 : a0 = p.first
          · omega
          · by_cases hke : la = p.last
            · omega
            · have hsplit := length_filter_add_le
                (p := fun l => decide (p.first ≤ l.addr ∧ l.addr ≤ a0 - 1))
                (q := fun l => decide (la + 1 ≤ l.addr ∧ l.addr ≤ p.last))
                (r := fun l => decide (p.first ≤ l.addr ∧ l.addr ≤ p.last)) db
                (by intro x _ hx; simp only [decide_eq_true_eq] at hx ⊢; omega)
                (by intro x _ hx; simp only [decide_eq_true_eq] at hx ⊢; omega)
                (by intro x _ hx; simp only [decide_eq_true_eq] at hx; omega)
              have hge1 := leasesInRange_ge (a0 - 1 - p.first) p.first
                (fun b hb1 hb2 => ha0min b hb1 (by omega))
              have hge2 := leasesInRange_ge (p.last - 1 - la) (la + 1)
                (fun b hb1 hb2 => hocc b hb1 (by omega))
              have hle : (db.filter (fun l =>
                  decide (p.first ≤ l.addr ∧ l.addr ≤ p.last))).length
                  ≤ db.length := List.length_filter_le _ _
              unfold leasesInRange at hge1 hge2
              have he1 : p.first + (a0 - 1 - p.first) = a0 - 1 := by omega
              have he2 : (la + 1) + (p.last - 1 - la) = p.last := by omega
              rw [he1] at hge1
              rw [he2] at hge2
              omega
        have hend : p.last = la + (p.last - la) := by omega
        have htoend := allocLoop_to_end (p.last - la) (db.length + 1) la
          hcb.1 hend (by omega) hocc
        rw [htoend]
        exact allocLoop_from_first (pickP_wrap hwfp) ha01 ha02 ha03 (by omega)
    · have hc2 : p.containsB la = false := by
        simp only [Bool.not_eq_true] at hc
        exact hc
      exact allocLoop_from_first (pickP_out hc2) ha01 ha02 ha03 (by omega)

/-- With a single pool holding more addresses than there are leases,
allocation never fails, whatever the hint. -/
theorem allocateAddress_single_some {fake : Bool} {sn : Subnet} {p : Pool}
    {d : Duid} {iaid : Nat} {hint : Option Nat} {now : Nat} {st : SrvState}
    (hpool : sn.pools = [p]) (hwfp : p.first ≤ p.last)
    (hN : st.db.length ≤ p.last - p.first) :
    ((allocateAddress fake sn d iaid hint now st).1).isSome = true := by
  cases hr : allocateAddress fake sn d iaid hint now st with
  | mk res st2 =>
    cases res with
    | some a => rfl
    | none =>
      exfalso
      have hloop := allocLoop_single_success hwfp hN (getLastAlloc st sn.id)
      unfold allocateAddress at hr
      rw [hpool] at hr
      cases hl : allocLoop st.db [p] (getLastAlloc st sn.id) (st.db.length + 1) with
      | mk res2 la =>
        rw [hl] at hloop
        cases res2 with
        | none => exact Bool.noConfusion hloop
        | some b =>
          rw [hl] at hr
          match hint, hr with
          | some hv, hr =>
            simp only at hr
            split at hr
            · simp at hr
            · simp at hr
          | none, hr =>
            simp at hr

/-- The fake allocation pass of SOLICIT over a single pool holding more
addresses than there are leases: the store is untouched, every IA_NA of
the request is answered in order, and each answer offers an address
satisfying SolicitIaProp against the incoming store. -/
theorem allocIAs_fake_spec {sn : Subnet} {p : Pool} {d : Duid} {now : Nat}
    (hpool : sn.pools = [p]) (hwfp : p.first ≤ p.last) (ias : List IaNaOpt) :
    ∀ st : SrvState, st.db.length ≤ p.last - p.first →
    (allocIAs true sn d now st ias).2.db = st.db ∧
    (allocIAs true sn d now st ias).1.length = ias.length ∧
    ∀ i, i < ias.length →
      SolicitIaProp st.db sn (ias.getD i default)
        ((allocIAs true sn d now st ias).1.getD i default) := by
  have hwf : poolsWF sn.pools := by
    rw [hpool]
    intro q hq
    cases List.mem_singleton.mp hq
    exact hwfp
  induction ias with
  | nil =>
    intro st _
    refine ⟨rfl, rfl, ?_⟩
    intro i hi
    exact absurd hi (by simp)
  | cons ia rest ih =>
    intro st hN
    cases hr : allocateAddress true sn d ia.iaid (ia.iaaddr.map (fun x => x.addr)) now st with
    | mk res st1 =>
      have hdb1 : st1.db = st.db := by
        have hfd := @allocateAddress_fake_db sn d ia.iaid
          (ia.iaaddr.map (fun x => x.addr)) now st
        rw [hr] at hfd
        exact hfd
      have hN1 : st1.db.length ≤ p.last - p.first := by rw [hdb1]; exact hN
      obtain ⟨ihdb, ihlen, ihspec⟩ := ih st1 hN1
      have tailProp : ∀ i, i < rest.length →
          SolicitIaProp st.db sn (rest.getD i default)
            ((allocIAs true sn d now st1 rest).1.getD i default) := by
        intro i hi
        have hsp := ihspec i hi
        rw [hdb1] at hsp
        exact hsp
      cases res with
      | some a =>
        have hstep : allocIAs true sn d now st (ia :: rest)
            = (okIaReply sn ia.iaid a :: (allocIAs true sn d now st1 rest).1,
               (allocIAs true sn d now st1 rest).2) := by
          simp only [allocIAs, hr]
        rw [hstep]
        refine ⟨by simpa using ihdb.trans hdb1, by simpa using ihlen, ?_⟩
        intro i hi
        cases i with
        | zero =>
          simp only [List.getD_cons_zero]
          obtain ⟨hfree, hin, _⟩ := allocateAddress_some hr
          refine ⟨rfl, { addr := a, preferred := sn.preferred, valid := sn.valid },
            rfl, rfl, rfl, rfl, rfl, hin hwf, hfree, ?_⟩
          intro hv hhv hvin hvfree
          have hgood := @allocateAddress_hint true sn d ia.iaid hv.addr now st hvin hvfree
          rw [hhv] at hr
          simp only [Option.map_some'] at hr
          rw [hr] at hgood
          simpa using hgood
        | succ i =>
          simp only [List.getD_cons_succ]
          exact tailProp i (by simpa using hi)
      | none =>
        exfalso
        have hsome := @allocateAddress_single_some true sn p d ia.iaid
          (ia.iaaddr.map (fun x => x.addr)) now st hpool hwfp hN
        rw [hr] at hsome
        exact Bool.noConfusion hsome

/-- A real (REQUEST) allocation inserts its lease: afterwards the lookup
by the allocated address returns the freshly built lease. -/
theorem allocateAddress_real_lease {sn : Subnet} {d : Duid} {iaid : Nat}
    {hint : Option Addr} {now : Nat} {st : SrvState} {a : Addr} {st' : SrvState}
    (h : allocateAddress false sn d iaid hint now st = (some a, st')) :
    getLease6ByAddr st'.db a = some (mkLease sn d iaid a now) := by
  obtain ⟨hfree, _, hdb⟩ := allocateAddress_some h
  have hdb' : st'.db = st.db ++ [mkLease sn d iaid a now] := by simpa using hdb
  rw [hdb']
  exact getLease6ByAddr_append_free hfree

/-- A hit of the client index is a member of the store with the looked-up
key. -/
theorem getLease6ByClient_mem {db : LeaseDB} {d : Duid} {iaid sid : Nat} {l : Lease}
    (h : getLease6ByClient db d iaid sid = some l) :
    l ∈ db ∧ l.duid = d ∧ l.iaid = iaid ∧ l.subnetId = sid := by
  have hm := List.mem_of_find?_eq_some h
  have hp := List.find?_some h
  simp only [decide_eq_true_eq] at hp
  exact ⟨hm, hp.1, hp.2.1, hp.2.2⟩

/-- After `update`, the lookup by the updated address returns the new
lease (provided some lease with that address was stored). -/
theorem getLease6ByAddr_updateLease {db : LeaseDB} {l l' : Lease}
    (hmem : l ∈ db) (haddr : l.addr = l'.addr) :
    getLease6ByAddr (updateLease db l') l'.addr = some l' := by
  induction db with
  | nil => cases hmem
  | cons x rest ih =>
    by_cases hx : x.addr = l'.addr
    · simp [updateLease, getLease6ByAddr, List.find?, hx]
    · have hlx : l ∈ rest := by
        rcases List.mem_cons.mp hmem with h | h
        · exact absurd (h ▸ haddr) hx
        · exact h
      have hrec := ih hlx
      simpa [updateLease, getLease6ByAddr, List.find?, hx] using hrec

/-- After `delete(addr)` the address index is empty at that address. -/
theorem getLease6ByAddr_deleteLease (db : LeaseDB) (a : Addr) :
    getLease6ByAddr (deleteLease db a) a = none := by
  rw [getLease6ByAddr_eq_none]
  intro l hl
  have hm := List.mem_filter.mp hl
  simpa using hm.2

/-- After `delete(addr)`, the client index misses as well, provided every
stored lease with the looked-up key sat at the deleted address. -/
theorem getLease6ByClient_deleteLease_none {db : LeaseDB} {a : Addr}
    {d : Duid} {iaid sid : Nat}
    (huniq : ∀ x ∈ db, x.duid = d → x.iaid = iaid → x.subnetId = sid → x.addr = a) :
    getLease6ByClient (deleteLease db a) d iaid sid = none := by
  unfold getLease6ByClient
  rw [List.find?_eq_none]
  intro x hx
  obtain ⟨hxdb, hxa⟩ := List.mem_filter.mp hx
  simp only [ne_eq, decide_eq_true_eq] at hxa
  simp only [decide_eq_true_eq]
  rintro ⟨h1, h2, h3⟩
  exact hxa (huniq x hxdb h1 h2 h3)

/-- Every allocation pass keeps the addresses of the store distinct. -/
theorem allocIAs_addrUnique {fake : Bool} {sn : Subnet} {d : Duid} {now : Nat} :
    ∀ (ias : List IaNaOpt) (st : SrvState), AddrUnique st.db →
      AddrUnique (allocIAs fake sn d now st ias).2.db := by
  intro ias
  induction ias with
  | nil => intro st h; exact h
  | cons ia rest ih =>
    intro st h
    cases hr : allocateAddress fake sn d ia.iaid (ia.iaaddr.map (fun x => x.addr)) now st with
    | mk res st1 =>
      have h1 : AddrUnique st1.db := by
        cases res with
        | some a =>
          obtain ⟨hfree, _, hdb⟩ := allocateAddress_some hr
          rw [hdb]
          cases fake with
          | true => simpa using h
          | false => simpa using addrUnique_append h hfree
        | none => rw [allocateAddress_none hr]; exact h
      have hstep : (allocIAs fake sn d now st (ia :: rest)).2
          = (allocIAs fake sn d now st1 rest).2 := by
        simp only [allocIAs, hr]
      rw [hstep]
      exact ih st1 h1

/-- The RENEW pass never changes the multiset of stored addresses (each
update rewrites a lease in place). -/
theorem renewIAs_map_addr (sn : Subnet) (d : Duid) (now : Nat) :
    ∀ (ias : List IaNaOpt) (db : LeaseDB),
      ((renewIAs sn d now db ias).2).map (fun x => x.addr)
        = db.map (fun x => x.addr) := by
  intro ias
  induction ias with
  | nil => intro db; rfl
  | cons ia rest ih =>
    intro db
    cases hr : renewIA sn d now db ia with
    | mk ria db1 =>
      have h1 : db1.map (fun x => x.addr) = db.map (fun x => x.addr) := by
        unfold renewIA at hr
        cases hl : getLease6ByClient db d ia.iaid sn.id with
        | none => rw [hl] at hr; cases hr; rfl
        | some l =>
          rw [hl] at hr
          simp only at hr
          split at hr
          · cases hr; exact map_addr_updateLease db _
          · cases hr; rfl
      have hstep : (renewIAs sn d now db (ia :: rest)).2
          = (renewIAs sn d now db1 rest).2 := by
        simp only [renewIAs, hr]
      rw [hstep, ih db1, h1]

/-- One RELEASE step only ever removes leases. -/
theorem releaseIA_sublist (d : Duid) (db : LeaseDB) (ia : IaNaOpt) :
    (releaseIA d db ia).2.1.Sublist db := by
  unfold releaseIA
  cases ia.iaaddr with
  | none => exact List.Sublist.refl db
  | some h =>
    simp only
    cases getLease6ByAddr db h.addr with
    | none => exact List.Sublist.refl db
    | some l =>
      simp only
      split
      · exact List.filter_sublist db
      · exact List.Sublist.refl db

/-- The RELEASE pass only ever removes leases. -/
theorem releaseIAs_sublist (d : Duid) :
    ∀ (ias : List IaNaOpt) (db : LeaseDB), (releaseIAs d db ias).2.1.Sublist db := by
  intro ias
  induction ias with
  | nil => intro db; exact List.Sublist.refl db
  | cons ia rest ih =>
    intro db
    cases hr : releaseIA d db ia with
    | mk ria rest2 =>
      have hsub : rest2.1.Sublist db := by
        have hs := releaseIA_sublist d db ia
        rw [hr] at hs
        exact hs
      have hstep : (releaseIAs d db (ia :: rest)).2.1
          = (releaseIAs d rest2.1 rest).2.1 := by
        simp only [releaseIAs, hr]
      rw [hstep]
      exact (ih rest2.1).trans hsub

/-- Bits beyond the prefix length (the `128 - len` least significant
bits) are zero after clearing. -/
theorem clearUnusedBits_testBit {a : Addr} {len k : Nat} (hk : k < 128 - len) :
    (clearUnusedBits a len).testBit k = false := by
  unfold clearUnusedBits
  rw [Nat.testBit_shiftLeft]
  have hnle : ¬ (128 - len ≤ k) := Nat.not_le.mpr hk
  simp [hnle]

/-- With a single pool and no previous pick, the allocator starts at the
pool's first address. -/
theorem pick_fresh {sn : Subnet} {p : Pool} (hpool : sn.pools = [p]) :
    pickAddress sn.pools none = some p.first := by
  rw [hpool]
  rfl

/-- With a single pool and a previous pick inside it that is not the
pool's end, the allocator advances to the next address. -/
theorem pick_next {sn : Subnet} {p : Pool} (hpool : sn.pools = [p]) (la : Addr)
    (hin : p.first ≤ la) (hlt : la + 1 ≤ p.last) :
    pickAddress sn.pools (some la) = some (la + 1) := by
  rw [hpool]
  unfold pickAddress
  have hc : p.containsB la = true := by
    have hb : p.first ≤ la ∧ la ≤ p.last := ⟨hin, Nat.le_of_succ_le hlt⟩
    simpa [Pool.containsB] using hb
  simp only [List.findIdx?_cons, hc, if_true, List.getD_cons_zero]
  rw [if_pos hlt]

theorem getLastAlloc_set (st : SrvState) (sid : Nat) (a : Addr) :
    getLastAlloc (setLastAlloc st sid a) sid = some a := by
  unfold getLastAlloc setLastAlloc
  simp [List.find?]

/-- One SOLICIT against an empty store: the reply advertises exactly the
address the iterative allocator picks, and the only state change is the
allocator position. -/
theorem solicit_once {sn : Subnet} (sd : Duid) (now x i : Nat) (d : Duid)
    (s : Addr) (hll : isLinkLocal s = true) (st : SrvState) (hdb : st.db = [])
    {cand : Addr}
    (hpick : pickAddress sn.pools (getLastAlloc st sn.id) = some cand) :
    processSolicit [sn] sd now st (solicitPkt x d i none s)
      = (some (mkReply DHCPV6_ADVERTISE sd (solicitPkt x d i none s)
          [okIaReply sn i cand] none),
         setLastAlloc st sn.id cand) := by
  have hsel : selectSubnet [sn] (solicitPkt x d i none s) = some sn := by
    unfold selectSubnet getSubnet6ByIface getSubnet6ByAddr
    simp [solicitPkt, hll]
  have hs : sanityCheck (solicitPkt x d i none s) .mandatory .forbidden = true := rfl
  have hcd : clientDuid (solicitPkt x d i none s) = d := rfl
  have halloc : allocateAddress true sn d i none now st
      = (some cand, setLastAlloc st sn.id cand) := by
    unfold allocateAddress
    rw [hdb]
    simp [allocLoop, hpick, getLease6ByAddr]
  unfold processSolicit
  rw [hs, hsel]
  simp only [Bool.not_true, Bool.false_eq_true, if_false]
  have hias : (solicitPkt x d i none s).ias
      = [{ iaid := i, t1 := 1500, t2 := 3000, iaaddr := none }] := rfl
  rw [hias, hcd]
  simp only [allocIAs, Option.map_none', halloc]

/-! ## Claim theorems -/

/-- C7: sanityCheck(packet, client expectation, server expectation) fails
with RFCViolation exactly when a Mandatory option (Client-Id or Server-Id,
per its expectation) is absent, a Forbidden one is present, or the
Client-Id or Server-Id option appears more than once; in every other case
(in particular exactly one of each Mandatory option and none of the
Forbidden ones) the packet passes. -/
theorem C7_sanity_check_characterization (pkt : Pkt) (cl sv : RequirementLevel) :
    sanityCheck pkt cl sv = false ↔
      ((cl = .mandatory ∧ pkt.clientIds.length = 0) ∨
       (cl = .forbidden ∧ 0 < pkt.clientIds.length) ∨
       1 < pkt.clientIds.length ∨
       (sv = .mandatory ∧ pkt.serverIds.length = 0) ∨
       (sv = .forbidden ∧ 0 < pkt.serverIds.length) ∨
       1 < pkt.serverIds.length) := by
  cases cl <;> cases sv <;>
    simp [sanityCheck, levelOk, -List.length_eq_zero] <;> omega

/-- C6 counterexample: the claim says a direct packet from a link-local
source whose interface matches no subnet selects nothing "also when
exactly one subnet is configured"; but on the configuration of
Dhcpv6SrvTest.selectSubnetAddr CASE 1 (exactly one subnet, source
fe80::abcd, no interface match, no relay) selection returns that one
subnet, exactly as the test asserts (dhcp6_srv_unittest.cc:1595-1599). -/
theorem C6_counterexample :
    cexPkt.relays = [] ∧
    getSubnet6ByIface [cexSubnet1] cexPkt.iface = none ∧
    isLinkLocal cexPkt.remoteAddr = true ∧
    selectSubnet [cexSubnet1] cexPkt = some cexSubnet1 := by
  refine ⟨rfl, by decide, by decide, by decide⟩

/-- C6 (amended): for every direct packet whose receiving interface name
matches no configured subnet's interface and whose source address is
link-local, selection returns nothing whenever the configured subnet list
does not consist of exactly one subnet; when exactly one subnet is
configured, that subnet is selected. -/
theorem C6_link_local_selection (cfg : List Subnet) (pkt : Pkt)
    (hdirect : pkt.relays = [])
    (hiface : getSubnet6ByIface cfg pkt.iface = none)
    (hll : isLinkLocal pkt.remoteAddr = true) :
    (cfg.length ≠ 1 → selectSubnet cfg pkt = none) ∧
    (∀ s, cfg = [s] → selectSubnet cfg pkt = some s) := by
  have hsel : selectSubnet cfg pkt = getSubnet6ByAddr cfg pkt.remoteAddr := by
    unfold selectSubnet
    rw [hdirect]
    simp [hiface]
  constructor
  · intro hne
    rw [hsel]
    unfold getSubnet6ByAddr
    rw [hll]
    simp [hne]
  · intro s hs
    rw [hsel]
    unfold getSubnet6ByAddr
    rw [hll]
    subst hs
    simp

theorem C6_link_local_selection_witness :
    selectSubnet [cexSubnet1, cexSubnet1] cexPkt = none ∧
    selectSubnet [cexSubnet1] cexPkt = some cexSubnet1 :=
  ⟨(C6_link_local_selection [cexSubnet1, cexSubnet1] cexPkt rfl (by decide)
      (by decide)).1 (by decide),
   (C6_link_local_selection [cexSubnet1] cexPkt rfl (by decide)
      (by decide)).2 cexSubnet1 rfl⟩

/-- C5 counterexample: the per-(DUID, IAID, subnet-id) half of the claimed
invariant is not preserved by `add`: a store holding one lease for
(duid [1,2], iaid 7, subnet 1) accepts a second lease for the very same
key under a fresh address and reports Ok, leaving two active leases for
that key. -/
theorem C5_counterexample :
    ClientUnique [cexLease1] ∧
    addLease [cexLease1] cexLease2 = .ok [cexLease1, cexLease2] ∧
    ¬ ClientUnique [cexLease1, cexLease2] := by
  exact ⟨by decide, by decide, by decide⟩

/-- C5 (amended): the address half of the invariant holds: each address
belongs to at most one lease, preserved by every store operation (`add`
reports Duplicate exactly when the address is already leased, and a
successful `add`, an `update` and a `delete` keep addresses distinct) and
by the processing of every message. -/
theorem C5_addr_uniqueness_preserved :
    (∀ (db : LeaseDB) (l : Lease), AddrUnique db →
      (addLease db l = .duplicate ↔ (getLease6ByAddr db l.addr).isSome = true) ∧
      (∀ db2, addLease db l = .ok db2 → AddrUnique db2) ∧
      AddrUnique (updateLease db l) ∧
      (∀ a, AddrUnique (deleteLease db a))) ∧
    (∀ (cfg : List Subnet) (sd : Duid) (now : Nat) (st : SrvState) (pkt : Pkt),
      AddrUnique st.db →
      AddrUnique (processSolicit cfg sd now st pkt).2.db ∧
      AddrUnique (processRequest cfg sd now st pkt).2.db ∧
      AddrUnique (processRenew cfg sd now st pkt).2.db ∧
      AddrUnique (processRelease sd st pkt).2.db) := by
  constructor
  · intro db l hu
    exact ⟨addLease_duplicate_iff, fun _ h => addLease_ok_addrUnique hu h,
      addrUnique_updateLease hu l, fun a => addrUnique_deleteLease hu a⟩
  · intro cfg sd now st pkt hu
    refine ⟨?_, ?_, ?_, ?_⟩
    · unfold processSolicit
      split
      · exact hu
      · split
        · exact hu
        · exact allocIAs_addrUnique pkt.ias st hu
    · unfold processRequest
      split
      · exact hu
      · split
        · exact hu
        · split
          · exact hu
          · exact allocIAs_addrUnique pkt.ias st hu
    · unfold processRenew
      split
      · exact hu
      · split
        · exact hu
        · unfold AddrUnique
          rw [renewIAs_map_addr]
          exact hu
    · unfold processRelease
      split
      · exact hu
      · exact List.Nodup.sublist
          (List.Sublist.map _ (releaseIAs_sublist (clientDuid pkt) pkt.ias st.db)) hu

theorem C5_addr_uniqueness_preserved_witness :
    AddrUnique [cexLease1] ∧ AddrUnique (updateLease [cexLease1] cexLease2) :=
  ⟨by decide, ((C5_addr_uniqueness_preserved.1 [cexLease1] cexLease2 (by decide)).2.2).1⟩

/-- C1: for every SOLICIT that passes the sanity check, for which a
subnet with a single well-formed pool is selected, and whose store holds
no more leases than the pool has spare addresses, an ADVERTISE is
produced that echoes the Client-Id, carries the server's Server-Id and
the originating transaction id, and answers each IA_NA in order with an
offer (SolicitIaProp): the IAID is preserved, the offered IA-Address
carries the subnet's T1, T2, preferred and valid, lies in the pool, is
currently free, and equals the client's hint whenever that hint was
inside the pool and free. -/
theorem C1_solicit_advertise (cfg : List Subnet) (sd : Duid) (now : Nat)
    (st : SrvState) (pkt : Pkt) (sn : Subnet) (p : Pool)
    (hs : sanityCheck pkt .mandatory .forbidden = true)
    (hsel : selectSubnet cfg pkt = some sn)
    (hpool : sn.pools = [p]) (hwfp : p.first ≤ p.last)
    (hN : st.db.length ≤ p.last - p.first) :
    ∃ r, (processSolicit cfg sd now st pkt).1 = some r ∧
      r.msgType = DHCPV6_ADVERTISE ∧ r.transid = pkt.transid ∧
      r.clientId = pkt.clientIds.head? ∧ r.serverId = sd ∧
      r.ias.length = pkt.ias.length ∧
      ∀ i, i < pkt.ias.length →
        SolicitIaProp st.db sn (pkt.ias.getD i default) (r.ias.getD i default) := by
  obtain ⟨hdb, hlen, hspec⟩ :=
    @allocIAs_fake_spec sn p (clientDuid pkt) now hpool hwfp pkt.ias st hN
  refine ⟨mkReply DHCPV6_ADVERTISE sd pkt
    (allocIAs true sn (clientDuid pkt) now st pkt.ias).1 none,
    ?_, rfl, rfl, rfl, rfl, hlen, hspec⟩
  unfold processSolicit
  rw [hs, hsel]
  simp

theorem C1_solicit_advertise_witness :
    st0.db.length ≤ ((mkPool64 (mkAddr 0x2001 0xdb8 1 1 0 0 0 0)).last
      - (mkPool64 (mkAddr 0x2001 0xdb8 1 1 0 0 0 0)).first) ∧
    ∃ r, (processSolicit [testSubnet] testServerDuid 0 st0
        (solicitPkt 1234 testClientDuid 234 (some testHint) testSrc1)).1 = some r ∧
      r.msgType = DHCPV6_ADVERTISE ∧
      r.transid = (solicitPkt 1234 testClientDuid 234 (some testHint) testSrc1).transid ∧
      r.clientId = (solicitPkt 1234 testClientDuid 234 (some testHint) testSrc1).clientIds.head? ∧
      r.serverId = testServerDuid ∧
      r.ias.length = (solicitPkt 1234 testClientDuid 234 (some testHint) testSrc1).ias.length ∧
      ∀ i, i < (solicitPkt 1234 testClientDuid 234 (some testHint) testSrc1).ias.length →
        SolicitIaProp st0.db testSubnet
          ((solicitPkt 1234 testClientDuid 234 (some testHint) testSrc1).ias.getD i default)
          (r.ias.getD i default) :=
  ⟨Nat.zero_le _,
   C1_solicit_advertise [testSubnet] testServerDuid 0 st0
    (solicitPkt 1234 testClientDuid 234 (some testHint) testSrc1) testSubnet
    (mkPool64 (mkAddr 0x2001 0xdb8 1 1 0 0 0 0))
    (by decide) (by decide) rfl (by decide) (Nat.zero_le _)⟩

/-- C2: for every REQUEST (with one IA_NA) whose Server-Id matches this
server's DUID and for which an address is successfully allocated, a lease
is inserted into the store before the REPLY is produced: afterwards the
lookup by the address offered in the REPLY's IA-Address returns a lease
whose address equals that address, whose DUID equals the client's DUID,
whose IAID equals the request's IAID and whose subnet id equals the
selected subnet's id. -/
theorem C2_request_inserts_lease (cfg : List Subnet) (sd : Duid) (now : Nat)
    (st : SrvState) (pkt : Pkt) (sn : Subnet) (ia : IaNaOpt)
    (hs : sanityCheck pkt .mandatory .mandatory = true)
    (hsid : pkt.serverIds.head? = some sd)
    (hsel : selectSubnet cfg pkt = some sn)
    (hias : pkt.ias = [ia]) :
    ∃ r st', processRequest cfg sd now st pkt = (some r, st') ∧
      r.msgType = DHCPV6_REPLY ∧ r.transid = pkt.transid ∧
      r.clientId = pkt.clientIds.head? ∧ r.serverId = sd ∧
      ∀ ria ∈ r.ias, ∀ ao, ria.iaaddr = some ao →
        ∃ l, getLease6ByAddr st'.db ao.addr = some l ∧
          l.addr = ao.addr ∧ l.duid = clientDuid pkt ∧
          l.iaid = ia.iaid ∧ l.subnetId = sn.id ∧ l.cltt = now := by
  have hproc : processRequest cfg sd now st pkt
      = (some (mkReply DHCPV6_REPLY sd pkt
          (allocIAs false sn (clientDuid pkt) now st pkt.ias).1 none),
         (allocIAs false sn (clientDuid pkt) now st pkt.ias).2) := by
    unfold processRequest
    rw [hs, hsel]
    simp [hsid]
  cases hr : allocateAddress false sn (clientDuid pkt) ia.iaid
      (ia.iaaddr.map (fun x => x.addr)) now st with
  | mk res st1 =>
    have hone : allocIAs false sn (clientDuid pkt) now st pkt.ias
        = ((match res with
            | some a => okIaReply sn ia.iaid a
            | none => nakIaReply ia.iaid STATUS_NoAddrsAvail) :: [], st1) := by
      rw [hias]
      cases res <;> simp only [allocIAs, hr]
    rw [hone] at hproc
    refine ⟨_, st1, hproc, rfl, rfl, rfl, rfl, ?_⟩
    intro ria hria ao hao
    cases res with
    | some a =>
      simp only [mkReply, List.mem_singleton] at hria
      subst hria
      simp only [okIaReply, Option.some.injEq] at hao
      subst hao
      exact ⟨mkLease sn (clientDuid pkt) ia.iaid a now,
        allocateAddress_real_lease hr, rfl, rfl, rfl, rfl, rfl⟩
    | none =>
      simp only [mkReply, List.mem_singleton] at hria
      subst hria
      simp [nakIaReply] at hao

theorem C2_request_inserts_lease_witness :
    ∃ r st', processRequest [testSubnet] testServerDuid 42 st0 testRequestPkt
        = (some r, st') ∧
      r.msgType = DHCPV6_REPLY ∧ r.transid = testRequestPkt.transid ∧
      r.clientId = testRequestPkt.clientIds.head? ∧ r.serverId = testServerDuid ∧
      ∀ ria ∈ r.ias, ∀ ao, ria.iaaddr = some ao →
        ∃ l, getLease6ByAddr st'.db ao.addr = some l ∧
          l.addr = ao.addr ∧ l.duid = clientDuid testRequestPkt ∧
          l.iaid = testIaReq.iaid ∧ l.subnetId = testSubnet.id ∧ l.cltt = 42 :=
  C2_request_inserts_lease [testSubnet] testServerDuid 42 st0 testRequestPkt
    testSubnet testIaReq (by decide) (by decide) (by decide) (by decide)

/-- C3: for every RENEW (with one IA_NA) that passes the sanity check and
is processed against a selected subnet: when the store holds a lease for
(client DUID, IAID, subnet id) and the IA-Address matches the stored
address (or the IA carries none), the stored lease's T1, T2, preferred
and valid become the subnet's current values, its cltt becomes the
processing time, and the REPLY echoes the refreshed address and
lifetimes; otherwise (no binding under this key, which covers no binding
at all, a binding under a different IAID and an address leased to a
different DUID, or a stored address that does not match the request) the
REPLY's IA_NA carries Status-Code NoBinding with no IA-Address and
T1 = T2 = 0, and the state (every stored lease, in particular its cltt)
is left unchanged. -/
theorem C3_renew_refresh_or_nobinding (cfg : List Subnet) (sd : Duid) (now : Nat)
    (st : SrvState) (pkt : Pkt) (sn : Subnet) (ia : IaNaOpt)
    (hs : sanityCheck pkt .mandatory .mandatory = true)
    (hsel : selectSubnet cfg pkt = some sn)
    (hias : pkt.ias = [ia]) :
    (∀ l, getLease6ByClient st.db (clientDuid pkt) ia.iaid sn.id = some l →
      (ia.iaaddr = none ∨ ∃ hv, ia.iaaddr = some hv ∧ hv.addr = l.addr) →
      ∃ st', processRenew cfg sd now st pkt
          = (some (mkReply DHCPV6_REPLY sd pkt [okIaReply sn ia.iaid l.addr] none), st') ∧
        ∃ l2, getLease6ByAddr st'.db l.addr = some l2 ∧
          l2.addr = l.addr ∧ l2.duid = l.duid ∧ l2.iaid = l.iaid ∧
          l2.t1 = sn.t1 ∧ l2.t2 = sn.t2 ∧ l2.preferred = sn.preferred ∧
          l2.valid = sn.valid ∧ l2.cltt = now) ∧
    ((getLease6ByClient st.db (clientDuid pkt) ia.iaid sn.id = none ∨
      (∃ l hv, getLease6ByClient st.db (clientDuid pkt) ia.iaid sn.id = some l ∧
        ia.iaaddr = some hv ∧ hv.addr ≠ l.addr)) →
      processRenew cfg sd now st pkt
        = (some (mkReply DHCPV6_REPLY sd pkt [nakIaReply ia.iaid STATUS_NoBinding] none),
           st)) := by
  have hproc : ∀ ria db1, renewIA sn (clientDuid pkt) now st.db ia = (ria, db1) →
      processRenew cfg sd now st pkt
        = (some (mkReply DHCPV6_REPLY sd pkt [ria] none), { st with db := db1 }) := by
    intro ria db1 hone
    unfold processRenew
    rw [hs, hsel]
    simp only [Bool.not_true, Bool.false_eq_true, if_false]
    rw [hias]
    simp only [renewIAs, hone]
  constructor
  · intro l hl hmatch
    have haok : (match ia.iaaddr with
        | none => true
        | some hv => decide (hv.addr = l.addr)) = true := by
      rcases hmatch with h | ⟨hv, hhv, heq⟩
      · rw [h]
      · rw [hhv]; simpa using heq
    have hone : renewIA sn (clientDuid pkt) now st.db ia
        = (okIaReply sn ia.iaid l.addr,
           updateLease st.db
             { l with t1 := sn.t1, t2 := sn.t2, preferred := sn.preferred, valid := sn.valid, cltt := now }) := by
      unfold renewIA
      rw [hl]
      simp only [haok, if_true]
    refine ⟨_, hproc _ _ hone, ?_⟩
    obtain ⟨hmem, _, _, _⟩ := getLease6ByClient_mem hl
    refine ⟨{ l with t1 := sn.t1, t2 := sn.t2, preferred := sn.preferred, valid := sn.valid, cltt := now },
      ?_, rfl, rfl, rfl, rfl, rfl, rfl, rfl, rfl⟩
    exact getLease6ByAddr_updateLease hmem rfl
  · intro hmiss
    have hone : renewIA sn (clientDuid pkt) now st.db ia
        = (nakIaReply ia.iaid STATUS_NoBinding, st.db) := by
      unfold renewIA
      rcases hmiss with h | ⟨l, hv, hl, hhv, hne⟩
      · rw [h]
      · rw [hl, hhv]
        simp [hne]
    have hfin := hproc _ _ hone
    simpa using hfin

theorem C3_renew_refresh_or_nobinding_witness :
    ∃ st', processRenew [testSubnet] testServerDuid 777
        { db := [preloadLease], lastAlloc := [] } testRenewPkt
        = (some (mkReply DHCPV6_REPLY testServerDuid testRenewPkt
            [okIaReply testSubnet testIaReq.iaid preloadLease.addr] none), st') ∧
      ∃ l2, getLease6ByAddr st'.db preloadLease.addr = some l2 ∧
        l2.addr = preloadLease.addr ∧ l2.duid = preloadLease.duid ∧
        l2.iaid = preloadLease.iaid ∧ l2.t1 = testSubnet.t1 ∧
        l2.t2 = testSubnet.t2 ∧ l2.preferred = testSubnet.preferred ∧
        l2.valid = testSubnet.valid ∧ l2.cltt = 777 :=
  (C3_renew_refresh_or_nobinding [testSubnet] testServerDuid 777
    { db := [preloadLease], lastAlloc := [] } testRenewPkt testSubnet testIaReq
    (by decide) (by decide) (by decide)).1 preloadLease (by decide)
    (Or.inr ⟨testHint, rfl, by decide⟩)

/-- C4: for every RELEASE (with one IA_NA) in which the looked-up binding
for the IA exists and is owned by the requesting DUID and IAID, the lease
is deleted - afterwards neither the lookup by address nor the lookup by
(DUID, IAID, subnet-id) returns a lease - and the REPLY carries a per-IA
Status-Code of Success, a message-level Status-Code of Success, and no
IA-Address sub-option in its IA_NA.  (The second-index emptiness uses the
at-most-one-lease-per-client-key hypothesis the claimed invariant
provides.) -/
theorem C4_release_deletes_lease (sd : Duid) (st : SrvState) (pkt : Pkt)
    (ia : IaNaOpt) (hv : IAAddrOpt) (l : Lease)
    (hs : sanityCheck pkt .mandatory .mandatory = true)
    (hias : pkt.ias = [ia])
    (hia : ia.iaaddr = some hv)
    (hl : getLease6ByAddr st.db hv.addr = some l)
    (hd : l.duid = clientDuid pkt)
    (hi : l.iaid = ia.iaid)
    (huniq : ∀ x ∈ st.db, x.duid = l.duid → x.iaid = l.iaid →
      x.subnetId = l.subnetId → x.addr = hv.addr) :
    ∃ st', processRelease sd st pkt
        = (some (mkReply DHCPV6_REPLY sd pkt [nakIaReply ia.iaid STATUS_Success]
            (some STATUS_Success)), st') ∧
      (nakIaReply ia.iaid STATUS_Success).iaaddr = none ∧
      getLease6ByAddr st'.db hv.addr = none ∧
      getLease6ByClient st'.db l.duid l.iaid l.subnetId = none := by
  have hone : releaseIA (clientDuid pkt) st.db ia
      = (nakIaReply ia.iaid STATUS_Success, deleteLease st.db hv.addr, true) := by
    unfold releaseIA
    rw [hia]
    simp only [hl]
    rw [if_pos ⟨hd, hi⟩]
  have hproc : processRelease sd st pkt
      = (some (mkReply DHCPV6_REPLY sd pkt [nakIaReply ia.iaid STATUS_Success]
          (some STATUS_Success)),
         { st with db := deleteLease st.db hv.addr }) := by
    unfold processRelease
    rw [hs]
    simp only [Bool.not_true, Bool.false_eq_true, if_false]
    rw [hias]
    simp only [releaseIAs, hone]
    rfl
  refine ⟨_, hproc, rfl, getLease6ByAddr_deleteLease st.db hv.addr, ?_⟩
  exact getLease6ByClient_deleteLease_none (fun x hx h1 h2 h3 => huniq x hx h1 h2 h3)

theorem C4_release_deletes_lease_witness :
    ∃ st', processRelease testServerDuid { db := [preloadLease], lastAlloc := [] }
        testReleasePkt
        = (some (mkReply DHCPV6_REPLY testServerDuid testReleasePkt
            [nakIaReply testIaReq.iaid STATUS_Success] (some STATUS_Success)), st') ∧
      (nakIaReply testIaReq.iaid STATUS_Success).iaaddr = none ∧
      getLease6ByAddr st'.db testHint.addr = none ∧
      getLease6ByClient st'.db preloadLease.duid preloadLease.iaid
        preloadLease.subnetId = none :=
  C4_release_deletes_lease testServerDuid { db := [preloadLease], lastAlloc := [] }
    testReleasePkt testIaReq testHint preloadLease
    (by decide) (by decide) (by decide) (by decide) (by decide) (by decide)
    (by decide)

/-- C8: parsing an IA-Prefix payload shorter than the fixed 25 bytes
raises OutOfRange; parsing with declared prefix length L clears every
address bit beyond position L (all bits at distance more than L from the
most significant end read back as zero); the 25-byte example payload with
length 77 and address 2001:db8:1:0:afaf:0:dead:beef parses to prefix
2001:db8:1:0:afa8:: and repacks to the cleared form; and constructing an
IA-Prefix from a non-IPv6 address, or with a prefix length greater
than 128, raises BadValue. -/
theorem C8_iaprefix_codec :
    (∀ (tc : Nat) (bytes : List Nat), bytes.length < 25 →
       unpackIaPrefixOption tc bytes = .error .outOfRange) ∧
    (∀ (tc : Nat) (bytes : List Nat) (o : IaPrefixOption),
       unpackIaPrefixOption tc bytes = .ok o →
       ∀ k, k < 128 - o.prefixLen → o.prefixAddr.testBit k = false) ∧
    (unpackIaPrefixOption 26 exampleIaPrefixBuf
       = .ok { typeCode := 26, preferred := 1000, valid := 3000000000,
               prefixLen := 77, prefixAddr := mkAddr 0x2001 0xdb8 1 0 0xafa8 0 0 0 } ∧
     packIaPrefixOption
         { typeCode := 26, preferred := 1000, valid := 3000000000,
           prefixLen := 77, prefixAddr := mkAddr 0x2001 0xdb8 1 0 0xafa8 0 0 0 }
       = exampleIaPrefixCleared) ∧
    (∀ (tc a len p v : Nat),
       buildIaPrefixOption tc (.v4 a) len p v = .error .badValue) ∧
    (∀ (tc a len p v : Nat), 128 < len →
       buildIaPrefixOption tc (.v6 a) len p v = .error .badValue) := by
  refine ⟨?_, ?_, ⟨by rfl, by rfl⟩, ?_, ?_⟩
  · intro tc bytes h
    unfold unpackIaPrefixOption
    rw [if_pos h]
  · intro tc bytes o ho k hk
    unfold unpackIaPrefixOption at ho
    split at ho
    · exact absurd ho (by simp)
    · simp only [Except.ok.injEq] at ho
      subst ho
      exact clearUnusedBits_testBit hk
  · intro tc a len p v
    rfl
  · intro tc a len p v h
    simp [buildIaPrefixOption, h]

theorem C8_iaprefix_codec_witness :
    (exampleIaPrefixBuf.take 24).length < 25 ∧
    unpackIaPrefixOption 26 (exampleIaPrefixBuf.take 24) = .error .outOfRange ∧
    128 < 255 ∧
    buildIaPrefixOption 12345 (.v6 testSrc1) 255 1000 2000 = .error .badValue :=
  ⟨by decide, (C8_iaprefix_codec.1 26 (exampleIaPrefixBuf.take 24) (by decide)),
   by decide, (C8_iaprefix_codec.2.2.2.2 12345 testSrc1 255 1000 2000 (by decide))⟩

/-- C9: a callout that sets the skip flag on pkt6_receive suppresses the
reply entirely (the packet is dropped silently); a pkt6_send callout that
sets the skip flag on the reply actually built for the packet suppresses
the transmission of that reply; a callout that sets the skip flag on
subnet6_select leaves the pre-callout subnet selection in force. -/
theorem C9_hook_skip_semantics :
    (∀ (recvCO : Pkt → Pkt × Bool) (sendCO : Reply → Reply × Bool)
       (cfg : List Subnet) (sd : Duid) (now : Nat) (st : SrvState) (pkt : Pkt),
       ((recvCO pkt).2 = true →
         (handlePacket recvCO sendCO cfg sd now st pkt).1 = none) ∧
       (∀ (rep : Reply) (st2 : SrvState),
         dispatch cfg sd now st (recvCO pkt).1 = (some rep, st2) →
         (sendCO rep).2 = true →
         (handlePacket recvCO sendCO cfg sd now st pkt).1 = none)) ∧
    (∀ (co : Option Subnet → Option Subnet × Bool) (cfg : List Subnet) (pkt : Pkt),
       (co (selectSubnet cfg pkt)).2 = true →
       selectSubnetHooked co cfg pkt = selectSubnet cfg pkt) := by
  constructor
  · intro recvCO sendCO cfg sd now st pkt
    constructor
    · intro h
      unfold handlePacket
      simp [h]
    · intro rep st2 hdisp hskip
      unfold handlePacket
      by_cases hrc : (recvCO pkt).2 = true
      · simp [hrc]
      · simp only [Bool.not_eq_true] at hrc
        simp only [hrc, Bool.false_eq_true, if_false]
        cases hd : dispatch cfg sd now st (recvCO pkt).1 with
        | mk orep st3 =>
          rw [hd] at hdisp
          injection hdisp with h1 h2
          subst h1
          simp only
          rw [if_pos hskip]
  · intro co cfg pkt h
    unfold selectSubnetHooked
    simp [h]

theorem C9_hook_skip_semantics_witness :
    (((fun (q : Pkt) => (q, true)) cexPkt).2 = true ∧
      (handlePacket (fun q => (q, true)) (fun r => (r, false)) [] testServerDuid 0
        st0 cexPkt).1 = none) ∧
    (dispatch [testSubnet] testServerDuid 0 st0
        ((fun (q : Pkt) => (q, false))
          (solicitPkt 1234 testClientDuid 234 none testSrc1)).1
      = (some (mkReply DHCPV6_ADVERTISE testServerDuid
            (solicitPkt 1234 testClientDuid 234 none testSrc1)
            [okIaReply testSubnet 234 (mkAddr 0x2001 0xdb8 1 1 0 0 0 0)] none),
          setLastAlloc st0 testSubnet.id (mkAddr 0x2001 0xdb8 1 1 0 0 0 0)) ∧
      ((fun (r : Reply) => (r, true))
          (mkReply DHCPV6_ADVERTISE testServerDuid
            (solicitPkt 1234 testClientDuid 234 none testSrc1)
            [okIaReply testSubnet 234 (mkAddr 0x2001 0xdb8 1 1 0 0 0 0)] none)).2
        = true ∧
      (handlePacket (fun q => (q, false)) (fun r => (r, true)) [testSubnet]
        testServerDuid 0 st0 (solicitPkt 1234 testClientDuid 234 none testSrc1)).1
        = none) ∧
    (((fun (_ : Option Subnet) => ((none : Option Subnet), true))
        (selectSubnet [cexSubnet1] cexPkt)).2 = true ∧
      selectSubnetHooked (fun _ => ((none : Option Subnet), true)) [cexSubnet1] cexPkt
        = selectSubnet [cexSubnet1] cexPkt) := by
  have hdisp : dispatch [testSubnet] testServerDuid 0 st0
      ((fun (q : Pkt) => (q, false))
        (solicitPkt 1234 testClientDuid 234 none testSrc1)).1
      = (some (mkReply DHCPV6_ADVERTISE testServerDuid
            (solicitPkt 1234 testClientDuid 234 none testSrc1)
            [okIaReply testSubnet 234 (mkAddr 0x2001 0xdb8 1 1 0 0 0 0)] none),
          setLastAlloc st0 testSubnet.id (mkAddr 0x2001 0xdb8 1 1 0 0 0 0)) := by
    have h1 := @solicit_once testSubnet testServerDuid 0 1234 234 testClientDuid
      testSrc1 (by decide) st0 rfl (mkAddr 0x2001 0xdb8 1 1 0 0 0 0) rfl
    exact h1
  refine ⟨⟨rfl, (C9_hook_skip_semantics.1 (fun q => (q, true)) (fun r => (r, false))
      [] testServerDuid 0 st0 cexPkt).1 rfl⟩,
    ⟨hdisp, rfl,
     (C9_hook_skip_semantics.1 (fun q => (q, false)) (fun r => (r, true))
       [testSubnet] testServerDuid 0 st0
       (solicitPkt 1234 testClientDuid 234 none testSrc1)).2
       (mkReply DHCPV6_ADVERTISE testServerDuid
         (solicitPkt 1234 testClientDuid 234 none testSrc1)
         [okIaReply testSubnet 234 (mkAddr 0x2001 0xdb8 1 1 0 0 0 0)] none)
       (setLastAlloc st0 testSubnet.id (mkAddr 0x2001 0xdb8 1 1 0 0 0 0))
       hdisp rfl⟩,
    ⟨rfl, C9_hook_skip_semantics.2 (fun _ => ((none : Option Subnet), true))
      [cexSubnet1] cexPkt rfl⟩⟩

/-- C10: three SOLICITs from clients with pairwise distinct DUIDs (each
one IA_NA, no address hint), processed consecutively from a fresh server
against one subnet with a single pool of at least three addresses, are
answered with ADVERTISEs offering pairwise distinct addresses (the first,
second and third address of the pool), even though no lease is recorded
in the store at any point. -/
theorem C10_many_solicits_distinct (sn : Subnet) (p : Pool) (sd : Duid)
    (now : Nat) (d1 d2 d3 : Duid) (i1 i2 i3 x1 x2 x3 : Nat) (s1 s2 s3 : Addr)
    (hpool : sn.pools = [p])
    (hbig : p.first + 2 ≤ p.last)
    (hd12 : d1 ≠ d2) (hd13 : d1 ≠ d3) (hd23 : d2 ≠ d3)
    (hll1 : isLinkLocal s1 = true) (hll2 : isLinkLocal s2 = true)
    (hll3 : isLinkLocal s3 = true) :
    ∃ st1 st2 st3,
      processSolicit [sn] sd now st0 (solicitPkt x1 d1 i1 none s1)
        = (some (mkReply DHCPV6_ADVERTISE sd (solicitPkt x1 d1 i1 none s1)
            [okIaReply sn i1 p.first] none), st1) ∧
      processSolicit [sn] sd now st1 (solicitPkt x2 d2 i2 none s2)
        = (some (mkReply DHCPV6_ADVERTISE sd (solicitPkt x2 d2 i2 none s2)
            [okIaReply sn i2 (p.first + 1)] none), st2) ∧
      processSolicit [sn] sd now st2 (solicitPkt x3 d3 i3 none s3)
        = (some (mkReply DHCPV6_ADVERTISE sd (solicitPkt x3 d3 i3 none s3)
            [okIaReply sn i3 (p.first + 2)] none), st3) ∧
      p.first ≠ p.first + 1 ∧ p.first + 1 ≠ p.first + 2 ∧ p.first ≠ p.first + 2 ∧
      st1.db = [] ∧ st2.db = [] ∧ st3.db = [] := by
  have h1 : pickAddress sn.pools (getLastAlloc st0 sn.id) = some p.first := by
    have hg : getLastAlloc st0 sn.id = none := rfl
    rw [hg]
    exact pick_fresh hpool
  have h2 : pickAddress sn.pools
      (getLastAlloc (setLastAlloc st0 sn.id p.first) sn.id) = some (p.first + 1) := by
    rw [getLastAlloc_set]
    exact pick_next hpool p.first (le_refl _) (Nat.le_of_succ_le hbig)
  have h3 : pickAddress sn.pools
      (getLastAlloc (setLastAlloc (setLastAlloc st0 sn.id p.first) sn.id
        (p.first + 1)) sn.id) = some (p.first + 2) := by
    rw [getLastAlloc_set]
    exact pick_next hpool (p.first + 1) (Nat.le_succ _) hbig
  refine ⟨setLastAlloc st0 sn.id p.first,
    setLastAlloc (setLastAlloc st0 sn.id p.first) sn.id (p.first + 1),
    setLastAlloc (setLastAlloc (setLastAlloc st0 sn.id p.first) sn.id
      (p.first + 1)) sn.id (p.first + 2),
    solicit_once sd now x1 i1 d1 s1 hll1 st0 rfl h1,
    solicit_once sd now x2 i2 d2 s2 hll2 _ rfl h2,
    solicit_once sd now x3 i3 d3 s3 hll3 _ rfl h3,
    Nat.ne_of_lt (Nat.lt_succ_self _),
    Nat.ne_of_lt (Nat.lt_succ_self _),
    Nat.ne_of_lt (Nat.lt_add_of_pos_right (by decide)),
    rfl, rfl, rfl⟩

theorem C10_many_solicits_distinct_witness :
    ∃ st1 st2 st3,
      processSolicit [testSubnet] testServerDuid 0 st0
          (solicitPkt 1234 [1] 1 none testSrc1)
        = (some (mkReply DHCPV6_ADVERTISE testServerDuid
            (solicitPkt 1234 [1] 1 none testSrc1)
            [okIaReply testSubnet 1 (mkPool64 (mkAddr 0x2001 0xdb8 1 1 0 0 0 0)).first]
            none), st1) ∧
      processSolicit [testSubnet] testServerDuid 0 st1
          (solicitPkt 2345 [2] 2 none testSrc2)
        = (some (mkReply DHCPV6_ADVERTISE testServerDuid
            (solicitPkt 2345 [2] 2 none testSrc2)
            [okIaReply testSubnet 2
              ((mkPool64 (mkAddr 0x2001 0xdb8 1 1 0 0 0 0)).first + 1)] none), st2) ∧
      processSolicit [testSubnet] testServerDuid 0 st2
          (solicitPkt 3456 [3] 3 none testSrc3)
        = (some (mkReply DHCPV6_ADVERTISE testServerDuid
            (solicitPkt 3456 [3] 3 none testSrc3)
            [okIaReply testSubnet 3
              ((mkPool64 (mkAddr 0x2001 0xdb8 1 1 0 0 0 0)).first + 2)] none), st3) ∧
      (mkPool64 (mkAddr 0x2001 0xdb8 1 1 0 0 0 0)).first
        ≠ (mkPool64 (mkAddr 0x2001 0xdb8 1 1 0 0 0 0)).first + 1 ∧
      (mkPool64 (mkAddr 0x2001 0xdb8 1 1 0 0 0 0)).first + 1
        ≠ (mkPool64 (mkAddr 0x2001 0xdb8 1 1 0 0 0 0)).first + 2 ∧
      (mkPool64 (mkAddr 0x2001 0xdb8 1 1 0 0 0 0)).first
        ≠ (mkPool64 (mkAddr 0x2001 0xdb8 1 1 0 0 0 0)).first + 2 ∧
      st1.db = [] ∧ st2.db = [] ∧ st3.db = [] :=
  C10_many_solicits_distinct testSubnet (mkPool64 (mkAddr 0x2001 0xdb8 1 1 0 0 0 0))
    testServerDuid 0 [1] [2] [3] 1 2 3 1234 2345 3456 testSrc1 testSrc2 testSrc3
    rfl (by decide) (by decide) (by decide) (by decide) (by decide) (by decide)
    (by decide)

end Kea6
